import Mathlib

/-!
Verification model of the TankFinder incremental indexing pipeline
(`src/indexer/indexer.py`).

Modelling conventions:

* A filesystem path is a list of segments (drive/root first, filename last),
  rendered with the separator `/`.  The source runs on Windows where the
  separator is a backslash; both separators are non-word characters, which is
  the only property the job/quote regular expressions depend on, so the
  choice does not affect any modelled behaviour.
* Machine integers are `Int`/`Nat`; file timestamps are the ISO-8601 UTC
  strings the source stores (`utc_iso`), compared as strings, exactly as the
  SQLite `TEXT` column is.
* `file_hash16` (the truncated SHA-1 of the lower-cased absolute path) is
  modelled as the lower-cased path string itself: an injective stand-in for
  an effectively collision-free digest of that same string.
* SQLite tables are lists of rows.  `schema.sql` is not part of the
  repository; where the row layout matters it is modelled from the spec
  (section 6 persisted schema), noted at the definition.
* Regular expressions from the source (`job_id_regex` default,
  `QNUM_RE`, `YEAR_DIR_RE`) are embedded as explicit matchers over
  `List Char`, including Python's leftmost-match rule and the backtracking
  order of `\d{4,6}` and the optional `(\.\d+)?` group.
* Python string methods (`lower`, `strip`, `split`) are modelled with their
  Lean counterparts; paths in the claims are ASCII, where they agree.
-/

namespace Indexer

/-- Path separator used to render a path from its segments. -/
def pathSep : String := "/"

/-- Rendering of a path as the string the source passes to the regexes. -/
def pathStr (segs : List String) : String := String.intercalate pathSep segs

/-- Final segment of a path (`Path.name`); empty for the root. -/
def lastName (segs : List String) : String := (segs.getLast?).getD ""

/-- All ancestors of a path, nearest first: pathlib's `path.parents`
(ending at the anchor, modelled as the empty segment list). -/
def parentsOf (segs : List String) : List (List String) :=
  (List.range segs.length).map (fun i => segs.take (segs.length - 1 - i))

/-- Python regex word character (`\w`), ASCII range. -/
def isWordChar (c : Char) : Bool := c.isAlphanum || c = '_'

/-- Python `int()` on the strings this pipeline feeds it, which the
surrounding regexes constrain to plain digit runs: `some` exactly on a
nonempty all-digit string, `none` (the `ValueError` path) otherwise. -/
def strToNat? (s : String) : Option Nat :=
  if s.toList ≠ [] ∧ s.toList.all Char.isDigit then
    some (s.toList.foldl (fun n c => n * 10 + (c.toNat - '0'.toNat)) 0)
  else none

/-- Python `str.lower()` (ASCII). -/
def lowerStr (s : String) : String := String.mk (s.toList.map Char.toLower)

/-- Split at every character satisfying `p`, keeping empty pieces — the
semantics of Python `re.split` on a single-character class and of
`str.split(sep)` for a one-character separator. -/
def splitCharsAux (p : Char → Bool) : List Char → List Char → List String
  | [], acc => [String.mk acc.reverse]
  | c :: rest, acc =>
      if p c then String.mk acc.reverse :: splitCharsAux p rest []
      else splitCharsAux p rest (c :: acc)

/-- Split a string at every character satisfying `p`. -/
def splitChars (s : String) (p : Char → Bool) : List String :=
  splitCharsAux p s.toList []

/-- Python `str.strip()`. -/
def stripStr (s : String) : String :=
  String.mk (((s.toList.dropWhile Char.isWhitespace).reverse.dropWhile
    Char.isWhitespace).reverse)

/-- Python `str.startswith(pfx)`. -/
def startsWithStr (s pfx : String) : Bool := pfx.toList.isPrefixOf s.toList

/-- Python slicing `s[:n]`. -/
def takeStr (s : String) (n : Nat) : String := String.mk (s.toList.take n)

/-- Match of the default job-id pattern `\b\d{3}-\d{2}\b`
(config key `job_id_regex`, default in `main`) at position `i` of `s`. -/
def jobPatAt (s : List Char) (i : Nat) : Bool :=
  match s.drop i with
  | d1 :: d2 :: d3 :: dash :: e1 :: e2 :: rest =>
      d1.isDigit && d2.isDigit && d3.isDigit && dash = '-' && e1.isDigit && e2.isDigit
      && (i = 0 || !(isWordChar (s.getD (i - 1) ' ')))
      && (match rest with
          | [] => true
          | c :: _ => !(isWordChar c))
  | _ => false

/-- Leftmost match position of the job-id pattern (`re.search` semantics). -/
def jobSearchPos (s : List Char) : Option Nat :=
  (List.range s.length).find? (fun i => jobPatAt s i)

/-- `JOB_ID_PAT.search(str)` returning the matched `job` group. -/
def jobSearch (s : List Char) : Option String :=
  match jobSearchPos s with
  | some i => some (String.mk ((s.drop i).take 6))
  | none => none

/-- `parse_job_id_from_path`: iterate `[path, *path.parents]` and return the
first `re.search` hit of the job pattern. -/
def parse_job_id_from_path (segs : List String) : Option String :=
  (segs :: parentsOf segs).findSome? (fun p => jobSearch (pathStr p).toList)

/-- `job_year_from_job_id`: parse the trailing `-YY` into a full year. -/
def job_year_from_job_id (job_id : String) : Option Int :=
  match strToNat? (((splitChars job_id (fun c => c = '-'))).getLast?.getD "") with
  | some yy => some (if 90 ≤ yy then (1900 : Int) + yy else (2000 : Int) + yy)
  | none => none

/-- Length of the leading digit run of `s`. -/
def digitRunLen (s : List Char) : Nat := (s.takeWhile Char.isDigit).length

/-- The `(?!\w)` lookahead of `QNUM_RE` at position `pos`. -/
def lookaheadOk (s : List Char) (pos : Nat) : Bool :=
  match s.drop pos with
  | [] => true
  | c :: _ => !(isWordChar c)

/-- One backtracking attempt of `QNUM_RE` with a fixed `\d{4,6}` length `n`
starting after the leading `q` at position `i`.  The optional group
`(?:\.(?P<ver>\d+))?` is tried present first, then absent, as the regex
engine does.  The `\d+` of the version is taken maximal: a shorter version
run leaves a digit as the next character, which always fails the `(?!\w)`
lookahead, so no other version length can succeed. -/
def qnumTryLen (s : List Char) (i n : Nat) : Option (String × Option Nat) :=
  let digits := (s.drop (i + 1)).take n
  if digits.length = n ∧ digits.all Char.isDigit then
    let pos := i + 1 + n
    let numStr := String.mk digits
    match s.drop pos with
    | '.' :: rest =>
        let vlen := digitRunLen rest
        if vlen ≠ 0 ∧ lookaheadOk s (pos + 1 + vlen) then
          some (numStr, some ((strToNat? (String.mk (rest.take vlen))).getD 0))
        else if lookaheadOk s pos then some (numStr, none) else none
    | _ => if lookaheadOk s pos then some (numStr, none) else none
  else none

/-- Match attempt of `QNUM_RE = (?i)(?<!\w)q(?P<num>\d{4,6})(?:\.(?P<ver>\d+))?(?!\w)`
at position `i`: lookbehind, case-insensitive `q`, then `\d{4,6}` greedily
(length 6 first, then 5, then 4). -/
def qnumTryAt (s : List Char) (i : Nat) : Option (String × Option Nat) :=
  if i = 0 || !(isWordChar (s.getD (i - 1) ' ')) then
    match s.drop i with
    | c :: _ =>
        if c = 'q' ∨ c = 'Q' then
          match qnumTryLen s i 6 with
          | some r => some r
          | none =>
              match qnumTryLen s i 5 with
              | some r => some r
              | none => qnumTryLen s i 4
        else none
    | [] => none
  else none

/-- `QNUM_RE.search`: leftmost match. -/
def qnumSearch (s : List Char) : Option (String × Option Nat) :=
  (List.range s.length).findSome? (fun i => qnumTryAt s i)

/-- `YEAR_DIR_RE.fullmatch`: `^(19|20)\d{2}$`. -/
def yearDirMatch (s : String) : Bool :=
  match s.toList with
  | [a, b, c, d] =>
      ((a = '1' && b = '9') || (a = '2' && b = '0')) && c.isDigit && d.isDigit
  | _ => false

/-- Index of the last `.` in a name (Python `str.rfind('.')`). -/
def lastDotIdx (name : String) : Option Nat :=
  (List.range name.length).reverse.find? (fun i => name.toList.getD i ' ' = '.')

/-- pathlib `Path.suffix`: the extension from the final dot, nonempty only
when the dot is neither the first nor the last character. -/
def suffixOf (name : String) : String :=
  match lastDotIdx name with
  | some i => if 0 < i ∧ i < name.length - 1 then String.mk (name.toList.drop i) else ""
  | none => ""

/-- pathlib `Path.stem`: the name minus `suffixOf`. -/
def stemOf (name : String) : String :=
  match lastDotIdx name with
  | some i => if 0 < i ∧ i < name.length - 1 then String.mk (name.toList.take i) else name
  | none => name

/-- Zero-padded two-digit rendering used in `f"Q{num}-{yint % 100:02d}"`. -/
def fmt02 (n : Nat) : String :=
  if n < 10 then "0" ++ toString n else toString n

/-- Result of `parse_quote_context`. -/
structure QuoteCtx where
  job_id : String
  jy : Int
  job_root : List String
  qver : Nat
deriving Repr, DecidableEq

/-- `path.relative_to(root)`: the remaining segments when `root` is a prefix. -/
def quoteRootRel (root segs : List String) : Option (List String) :=
  if root.isPrefixOf segs then some (segs.drop root.length) else none

/-- The `q_folder` scan of `parse_quote_context`: first of
`[path.parent, *path.parents]` whose name contains a `Q####(.N)` token
(the parent is examined twice, as in the source; this is harmless). -/
def findQFolder (segs : List String) : Option (List String) :=
  (segs.dropLast :: parentsOf segs).find? (fun pr => (qnumSearch (lastName pr).toList).isSome)

/-- The string `parse_quote_context` finally searches for the quote number:
the `q_folder` name if one was found, else the filename stem. -/
def quoteTarget (segs : List String) : Option (String × Option Nat) :=
  qnumSearch (match findQFolder segs with
              | some f => lastName f
              | none => stemOf (lastName segs)).toList

/-- `parse_quote_context(path, quotes_roots, year_min, year_max)`. -/
def parse_quote_context (segs : List String) (quotesRoots : List (List String))
    (yearMin yearMax : Int) : Option QuoteCtx :=
  quotesRoots.findSome? (fun root =>
    match quoteRootRel root segs with
    | none => none
    | some parts =>
        match parts with
        | [] => none
        | y :: _ =>
            if yearDirMatch y then
              let yint : Int := ((strToNat? y).getD 0 : Nat)
              if yearMin ≤ yint ∧ yint ≤ yearMax then
                match quoteTarget segs with
                | some (num, ver) =>
                    some { job_id := "Q" ++ num ++ "-" ++ fmt02 ((yint % 100).toNat),
                           jy := yint,
                           job_root := (findQFolder segs).getD segs.dropLast,
                           qver := ver.getD 0 }
                | none => none
              else none
            else none)

/-- `norm_tokens`: lower-case and split on `[^a-z0-9]+`, dropping empties. -/
def norm_tokens (s : String) : List String :=
  (splitChars (lowerStr s) (fun c => !(c.isLower || c.isDigit))).filter (fun t => t ≠ "")

/-- Substring test (`in` on Python strings, SQLite `instr(...) > 0`). -/
def containsSub (hay needle : String) : Bool :=
  (List.range (hay.length + 1)).any (fun i => needle.toList.isPrefixOf (hay.toList.drop i))

/-- One detector of the configurable detector map. -/
structure DetSpec where
  extAny : List String := []
  nameTokensAny : List String := []
deriving Repr, DecidableEq

/-- `DEFAULT_DETECTORS`, in dict insertion order. -/
def DEFAULT_DETECTORS : List (String × DetSpec) :=
  [("compress", { extAny := [".cw7", ".xml"], nameTokensAny := ["compress", "codeware"] }),
   ("ametank", { extAny := [".mdl", ".xmt_txt"], nameTokensAny := ["ametank", "ame"] }),
   ("cad", { extAny := [".dwg", ".dxf"] }),
   ("pdf", { extAny := [".pdf"] }),
   ("excel", { extAny := [".xlsx", ".xlsm", ".xls", ".csv"] }),
   ("word", { extAny := [".docx", ".doc"] }),
   ("powerpoint", { extAny := [".pptx", ".ppt"] }),
   ("archive", { extAny := [".zip", ".7z", ".rar"] }),
   ("legacy_calc", { extAny := [".wk1", ".wk3", ".wk4", ".fmt", ".prn"] })]

/-- `apply_detectors`: every detector whose extension set or token set hits,
in detector-map order. -/
def apply_detectors (tokens : List String) (ext : String)
    (detectors : List (String × DetSpec)) : List String :=
  let e := lowerStr ext
  (detectors.filter (fun kv =>
      (kv.2.extAny ≠ [] ∧ e ∈ kv.2.extAny) ∨
      (kv.2.nameTokensAny ≠ [] ∧ tokens.any (fun t => t ∈ kv.2.nameTokensAny)))).map
    (fun kv => kv.1)

/-- `detect_kind`. -/
def detect_kind (ext : String) : String :=
  let e := lowerStr ext
  if e = ".pdf" then "pdf"
  else if e = ".dwg" ∨ e = ".dxf" then "cad"
  else if e ∈ [".jpg", ".jpeg", ".png", ".bmp", ".tif", ".tiff", ".heic"] then "image"
  else if e ∈ [".txt", ".csv", ".log", ".md", ".xml", ".html", ".htm"] then "text"
  else "other"

/-- Immutable run configuration: the `config.yaml` values the pipeline reads,
plus the availability of the optional PyMuPDF import (`fitz`). -/
structure Config where
  quotesRoots : List (List String) := []
  qYearMin : Int := 2022
  qYearMax : Int := 2100
  ignoreExts : List String := []
  ignoreDirTokens : List String := []
  detectors : List (String × DetSpec) := DEFAULT_DETECTORS
  pdfEnabled : Bool := false
  fitzAvailable : Bool := true
  pathAllowTokens : List String := []
  maxPdfPages : Nat := 10
  maxPdfChars : Nat := 40000
  officeEnabled : Bool := false
  officeInclude : List String := []
  officeMaxChars : Nat := 40000
deriving Repr, DecidableEq

/-- One file as the walker hands it to the main loop.  `statOk` is whether
`p.stat()` succeeds; `pdfDoc` is the page-text sequence `fitz.open` would
produce (`none` = the open/read raises, the catch-all of
`extract_pdf_text`); `officeRaw` is the pre-truncation text the per-format
office/text reader would produce (`none` = the reader raises).  The readers
themselves are I/O and are abstracted by these two oracles; their
failure-to-empty-string and truncation behaviour is modelled exactly. -/
structure FInfo where
  segs : List String
  statOk : Bool := true
  size : Int := 0
  mtime : String := ""
  pdfDoc : Option (List String) := none
  officeRaw : Option String := none
deriving Repr, DecidableEq

/-- `" ".join(s.split())`: whitespace normalisation used by the extractors. -/
def normWs (s : String) : String :=
  String.intercalate " " ((splitChars s Char.isWhitespace).filter (fun t => t ≠ ""))

/-- `extract_pdf_text`: first `maxPages` pages, whitespace-normalised, cut to
`maxChars`; empty on failure or when `fitz` is unavailable. -/
def extract_pdf_text (fitzAvail : Bool) (doc : Option (List String))
    (maxPages maxChars : Nat) : String :=
  if !fitzAvail then ""
  else
    match doc with
    | none => ""
    | some pages => takeStr (normWs (String.intercalate " " (pages.take maxPages))) maxChars

/-- Plain-text extensions of the fall-through branch of `extract_office_text`. -/
def officeTextExts : List String := [".txt", ".md", ".log", ".xml", ".html", ".htm"]

/-- `extract_office_text`: format dispatch on the (lower-cased) suffix, gated
by `office_text.enabled` and the `include` list; every per-format reader
returns its text cut to `max_chars` and returns `""` on failure. -/
def extract_office_text (cfg : Config) (f : FInfo) : String :=
  if !cfg.officeEnabled then ""
  else
    let ext := lowerStr (suffixOf (lastName f.segs))
    let body := match f.officeRaw with
                | none => ""
                | some s => takeStr s cfg.officeMaxChars
    if ext = ".csv" ∧ "csv" ∈ cfg.officeInclude then body
    else if (ext = ".xlsx" ∨ ext = ".xlsm") ∧ "xlsx" ∈ cfg.officeInclude then body
    else if ext = ".docx" ∧ "docx" ∈ cfg.officeInclude then body
    else if ext = ".pptx" ∧ "pptx" ∈ cfg.officeInclude then body
    else if ext ∈ officeTextExts then body
    else ""

/-- `should_parse_pdf_jobs`. -/
def should_parse_pdf_jobs (cfg : Config) (f : FInfo) : Bool :=
  cfg.pdfEnabled && cfg.fitzAvailable &&
  (lowerStr (suffixOf (lastName f.segs)) = ".pdf") &&
  (cfg.pathAllowTokens.isEmpty ||
   cfg.pathAllowTokens.any (fun tok => containsSub (lowerStr (pathStr f.segs.dropLast)) (lowerStr tok)))

/-- `should_parse_pdf_quotes_only`. -/
def should_parse_pdf_quotes_only (cfg : Config) (f : FInfo) : Bool :=
  (lowerStr (suffixOf (lastName f.segs)) = ".pdf") &&
  (parse_quote_context f.segs cfg.quotesRoots cfg.qYearMin cfg.qYearMax).isSome

/-- `" ".join(name_tokens[:64])`: the `tokens_fname` column and the baseline
searchable text. -/
def tokensFname (f : FInfo) : String :=
  String.intercalate " "
    ((norm_tokens (lastName f.segs) ++ norm_tokens (pathStr f.segs.dropLast)).take 64)

/-- The `parse_jobs_pdf or parse_quotes_pdf` test of the scan loop: JOBS
files use the allow-token gate, quote files the quote-number gate. -/
def pdfEligible (cfg : Config) (f : FInfo) (job_id : String) : Bool :=
  (if !(startsWithStr job_id "Q") then should_parse_pdf_jobs cfg f else false) ||
  (if startsWithStr job_id "Q" then should_parse_pdf_quotes_only cfg f else false)

/-- The searchable-content string built for a file (`main`, both in the
unchanged-backfill branch and in the new/changed branch, which are
textually identical in the source): filename/path tokens, then the PDF body
when the file is PDF-eligible, then the office body, each appended only
when nonempty and `strip`ped after appending. -/
def buildFtsContent (cfg : Config) (f : FInfo) (job_id : String) : String :=
  let base := tokensFname f
  let c1 :=
    if pdfEligible cfg f job_id then
      let txt := extract_pdf_text cfg.fitzAvailable f.pdfDoc cfg.maxPdfPages cfg.maxPdfChars
      if txt ≠ "" then stripStr (base ++ " " ++ txt) else base
    else base
  let office := extract_office_text cfg f
  if office ≠ "" then stripStr (c1 ++ " " ++ office) else c1

/-- A `files` row.  Modelled from the spec for the column list (`schema.sql`
is not in the repository; spec section 6: Files(identity_key PK, job_id,
relative_path, extension, size, mtime, kind, tag_set, deleted, revision)),
with the column names the source's SQL statements use. -/
structure FileRec where
  file_hash16 : String
  job_id : String
  rel_path : String
  ext : String
  size_bytes : Int
  mtime_utc : String
  kind : String
  tokens_fname : String
  detector_hits : String
  deleted : Nat := 0
  q_version : Option Int := none
deriving Repr, DecidableEq

/-- A `jobs` row.  Modelled from the spec for the column list (spec section
6: Jobs(job_id PK, root_path, year, first_seen, last_seen, aggregates,
evidence flags)); columns the INSERT does not mention default to NULL
(`none`).  The `has_legacy_calc` column is taken to exist, so the
`except sqlite3.OperationalError` fallback of `rollup_job_stats` is not
exercised. -/
structure JobRec where
  job_id : String
  root_path : String
  job_year : Option Int := none
  first_seen : String := ""
  last_seen : String := ""
  file_count_total : Option Int := none
  byte_size_total : Option Int := none
  last_modified_utc : Option String := none
  has_pdf : Option Nat := none
  has_dwg_dxf : Option Nat := none
  has_compress : Option Nat := none
  has_ame : Option Nat := none
  has_legacy_calc : Option Nat := none
deriving Repr, DecidableEq

/-- The persisted store: `files`, `jobs` and the FTS table
(`fts_files(content, file_hash16)`). -/
structure Db where
  files : List FileRec := []
  jobs : List JobRec := []
  fts : List (String × String) := []
deriving Repr, DecidableEq

/-- `SELECT ... FROM files WHERE file_hash16=?`. -/
def lookupFile (files : List FileRec) (fh : String) : Option FileRec :=
  files.find? (fun r => r.file_hash16 = fh)

/-- One row of the `INSERT ... ON CONFLICT(file_hash16) DO UPDATE` of
`upsert_files`: on conflict only size/mtime/kind/tokens/hits are replaced,
`deleted` is reset to 0 and `q_version` keeps the old value when the new one
is NULL; `job_id`, `rel_path` and `ext` are not updated. -/
def upsertOne (files : List FileRec) (r : FileRec) : List FileRec :=
  if files.any (fun old => old.file_hash16 = r.file_hash16) then
    files.map (fun old =>
      if old.file_hash16 = r.file_hash16 then
        { old with size_bytes := r.size_bytes, mtime_utc := r.mtime_utc, kind := r.kind,
                   tokens_fname := r.tokens_fname, detector_hits := r.detector_hits,
                   deleted := 0,
                   q_version := match r.q_version with
                                | some v => some v
                                | none => old.q_version }
      else old)
  else files ++ [r]

/-- `upsert_files` over a batch (executemany, in order). -/
def applyBatch (files : List FileRec) (batch : List FileRec) : List FileRec :=
  batch.foldl upsertOne files

/-- `upsert_fts_rows`: per row, delete every FTS row with that hash, then
insert the new `(content, hash)` row. -/
def applyFtsRows (fts : List (String × String)) (rows : List (String × String)) :
    List (String × String) :=
  rows.foldl (fun acc row => (acc.filter (fun e => e.2 ≠ row.2)) ++ [row]) fts

/-- `ensure_job`: insert, or on conflict refresh `root_path` and `last_seen`
and keep the existing `job_year` when present (`COALESCE(jobs.job_year,
excluded.job_year)`). -/
def ensure_job (jobs : List JobRec) (job_id root_path : String) (jy : Option Int)
    (now : String) : List JobRec :=
  if jobs.any (fun j => j.job_id = job_id) then
    jobs.map (fun j =>
      if j.job_id = job_id then
        { j with root_path := root_path,
                 job_year := match j.job_year with
                             | some y => some y
                             | none => jy,
                 last_seen := now }
      else j)
  else jobs ++ [{ job_id := job_id, root_path := root_path, job_year := jy,
                  first_seen := now, last_seen := now }]

/-- The `j.job_year BETWEEN ? AND ?` test of the reconciliation JOIN; a NULL
`job_year` never satisfies BETWEEN. -/
def jobYearInRange (jobs : List JobRec) (job_id : String) (ymin ymax : Int) : Bool :=
  jobs.any (fun j => j.job_id = job_id &&
    (match j.job_year with
     | some y => ymin ≤ y && y ≤ ymax
     | none => false))

/-- `mark_deleted_missing` (the year-bounded branch `main` always takes):
collect the hashes of active rows whose owning job's year is in range and
that were not observed, then set their `deleted` flag; returns the new
store and the number of marked rows. -/
def mark_deleted_missing (db : Db) (seen : List String) (ymin ymax : Int) : Db × Nat :=
  let toDelete := (db.files.filter (fun fl =>
      fl.deleted = 0 && jobYearInRange db.jobs fl.job_id ymin ymax &&
      !(seen.contains fl.file_hash16))).map (fun fl => fl.file_hash16)
  ({ db with files := db.files.map (fun fl =>
       if fl.file_hash16 ∈ toDelete then { fl with deleted := 1 } else fl) },
   toDelete.length)

/-- Active rows of one job (`WHERE job_id=? AND deleted=0`). -/
def activeOfJob (files : List FileRec) (job_id : String) : List FileRec :=
  files.filter (fun fl => fl.job_id = job_id && fl.deleted = 0)

/-- SQLite `MAX` over a TEXT column: NULL on no rows, else the
lexicographically greatest value (binary collation). -/
def maxMt (l : List String) : Option String :=
  l.foldl (fun acc s =>
    match acc with
    | none => some s
    | some m => some (if m < s then s else m)) none

/-- `instr(detector_hits, label) > 0`. -/
def hitHas (hits label : String) : Bool := containsSub hits label

/-- The `has_pdf` evidence predicate of `rollup_job_stats`. -/
def pdfEvidence (fl : FileRec) : Bool := fl.ext = ".pdf" || hitHas fl.detector_hits "pdf"

/-- The `has_dwg_dxf` evidence predicate of `rollup_job_stats`. -/
def cadEvidence (fl : FileRec) : Bool :=
  fl.ext = ".dwg" || fl.ext = ".dxf" || hitHas fl.detector_hits "cad"

/-- `EXISTS(...)` as the 0/1 integer SQLite yields. -/
def b2n (b : Bool) : Nat := if b then 1 else 0

/-- `rollup_job_stats`: recompute one job's aggregates from its active rows. -/
def rollup_job_stats (db : Db) (job_id : String) : Db :=
  let act := activeOfJob db.files job_id
  let fc : Int := act.length
  let bytes : Int := (act.map (fun fl => fl.size_bytes)).sum
  let mm := maxMt (act.map (fun fl => fl.mtime_utc))
  { db with jobs := db.jobs.map (fun j =>
      if j.job_id = job_id then
        { j with file_count_total := some fc,
                 byte_size_total := some bytes,
                 has_pdf := some (b2n (act.any pdfEvidence)),
                 has_dwg_dxf := some (b2n (act.any cadEvidence)),
                 has_compress := some (b2n (act.any (fun fl => hitHas fl.detector_hits "compress"))),
                 has_ame := some (b2n (act.any (fun fl => hitHas fl.detector_hits "ametank"))),
                 has_legacy_calc := some (b2n (act.any (fun fl => hitHas fl.detector_hits "legacy_calc"))),
                 last_modified_utc := mm }
      else j) }

/-- `job_id LIKE 'Q%'` (SQLite LIKE is ASCII case-insensitive). -/
def quoteLike (s : String) : Bool := startsWithStr s "Q" || startsWithStr s "q"

/-- `COALESCE(q_version, 0)`. -/
def qvOf (fl : FileRec) : Int := (fl.q_version).getD 0

/-- Rows subject to quote-revision retention: active quote-job PDFs. -/
def isActiveQuotePdf (fl : FileRec) : Bool :=
  quoteLike fl.job_id && fl.ext = ".pdf" && fl.deleted = 0

/-- A row is superseded when some active quote PDF of the same job has a
strictly higher revision (`COALESCE(f.q_version,0) < m.maxv`). -/
def supersededQuote (files : List FileRec) (fl : FileRec) : Bool :=
  isActiveQuotePdf fl &&
  files.any (fun g => isActiveQuotePdf g && g.job_id = fl.job_id && qvOf fl < qvOf g)

/-- `cleanup_old_quote_versions`: delete from FTS every row whose hash
belongs to a superseded active quote PDF. -/
def cleanup_old_quote_versions (db : Db) : Db :=
  { db with fts := db.fts.filter (fun row =>
      !(db.files.any (fun fl => supersededQuote db.files fl && fl.file_hash16 = row.2))) }

/-- The run counters printed at the end of `main`. -/
structure Counters where
  totalScanned : Nat := 0
  indexed : Nat := 0
  ftsBackfilled : Nat := 0
  skippedNoJob : Nat := 0
  skippedUnchanged : Nat := 0
  skippedOutOfYear : Nat := 0
  skippedIgnoredExt : Nat := 0
  skippedIgnoredDir : Nat := 0
deriving Repr, DecidableEq

/-- The command-line arguments of `main`. -/
structure Args where
  limit : Nat := 0
  dryRun : Bool := false
  noDelete : Bool := false
  yearMin : Int := 2015
  yearMax : Int := 2025
  quotesOnly : Bool := false
deriving Repr, DecidableEq

/-- In-flight state of the scan loop of `main`. -/
structure ScanState where
  db : Db
  batch : List FileRec := []
  ftsBatch : List (String × String) := []
  seen : List String := []
  perJobRoots : List (String × String) := []
  counters : Counters := {}
  stopped : Bool := false
deriving Repr, DecidableEq

/-- `file_hash16(str(p).lower())`, with the digest modelled as the
(injective) lower-cased path string itself. -/
def fhOf (f : FInfo) : String := lowerStr (pathStr f.segs)

/-- The `job_root` scan for JOBS files: first of `[p.parent, *p.parents]`
whose full path string contains the job pattern. -/
def findJobRoot (segs : List String) : Option (List String) :=
  (segs.dropLast :: parentsOf segs).find? (fun pr => (jobSearch (pathStr pr).toList).isSome)

/-- Outcome of the identity-resolution block of the scan loop
(lines 623-651 of `indexer.py`). -/
inductive ClassOut where
  | noJob
  | outOfYear
  | ok (job_id : String) (jy : Option Int) (qver : Option Nat) (job_root : List String)
deriving Repr, DecidableEq

/-- Job/quote resolution and the JOBS year gate: `parse_job_id_from_path`
first; on miss, `parse_quote_context`; non-quote ids are gated on the year
derived from the id (files with an underivable year pass the gate). -/
def classify (cfg : Config) (args : Args) (f : FInfo) : ClassOut :=
  match parse_job_id_from_path f.segs with
  | some jid =>
      let root := (findJobRoot f.segs).getD f.segs.dropLast
      if !(startsWithStr jid "Q") then
        match job_year_from_job_id jid with
        | some y =>
            if y < args.yearMin ∨ y > args.yearMax then ClassOut.outOfYear
            else ClassOut.ok jid (some y) none root
        | none => ClassOut.ok jid none none root
      else ClassOut.ok jid none none root
  | none =>
      match parse_quote_context f.segs cfg.quotesRoots cfg.qYearMin cfg.qYearMax with
      | some qc => ClassOut.ok qc.job_id (some qc.jy) (some qc.qver) qc.job_root
      | none => ClassOut.noJob

/-- `rel = str(p).replace(str(job_root) + os.sep, "", 1) if startswith else p.name`. -/
def relPathOf (f : FInfo) (job_root : List String) : String :=
  let full := pathStr f.segs
  let rootS := pathStr job_root ++ pathSep
  if startsWithStr full rootS then String.mk (full.toList.drop rootS.length)
  else lastName f.segs

/-- The `FileRow` built for a new or changed file. -/
def mkRow (cfg : Config) (f : FInfo) (jid : String) (qver : Option Nat)
    (job_root : List String) : FileRec :=
  let ext := lowerStr (suffixOf (lastName f.segs))
  let name_tokens := norm_tokens (lastName f.segs) ++ norm_tokens (pathStr f.segs.dropLast)
  { file_hash16 := fhOf f, job_id := jid, rel_path := relPathOf f job_root, ext := ext,
    size_bytes := f.size, mtime_utc := f.mtime, kind := detect_kind ext,
    tokens_fname := String.intercalate " " (name_tokens.take 64),
    detector_hits := String.intercalate "," (apply_detectors name_tokens ext cfg.detectors),
    deleted := 0,
    q_version := if startsWithStr jid "Q" ∧ ext = ".pdf"
                 then (qver.map (fun v => (v : Int)))
                 else none }

/-- How the scan loop disposes of one file after the break check: the cheap
skips, the stat, classification, and the unchanged-fast-path test against
the committed `files` table, in source order. -/
inductive StepKind where
  | skipExt
  | skipDir
  | skipStat
  | skipNoJob
  | skipOutOfYear
  | fast (job_id : String)
  | slow (job_id : String) (jy : Option Int) (qver : Option Nat) (job_root : List String)
deriving Repr, DecidableEq

/-- Decision chain of the scan loop for one file (`main`, lines 610-661). -/
def stepKind (cfg : Config) (args : Args) (files : List FileRec) (f : FInfo) : StepKind :=
  if cfg.ignoreExts.contains (lowerStr (suffixOf (lastName f.segs))) then StepKind.skipExt
  else if cfg.ignoreDirTokens ≠ [] ∧
          cfg.ignoreDirTokens.any (fun t => containsSub (lowerStr (pathStr f.segs.dropLast)) t) then
    StepKind.skipDir
  else if !f.statOk then StepKind.skipStat
  else
    match classify cfg args f with
    | ClassOut.noJob => StepKind.skipNoJob
    | ClassOut.outOfYear => StepKind.skipOutOfYear
    | ClassOut.ok jid jy qver root =>
        match lookupFile files (fhOf f) with
        | some old =>
            if old.size_bytes = f.size ∧ old.mtime_utc = f.mtime then StepKind.fast jid
            else StepKind.slow jid jy qver root
        | none => StepKind.slow jid jy qver root

/-- A batch flush (`upsert_files; upsert_fts_rows; con.commit()`). -/
def flushState (st : ScanState) : ScanState :=
  { st with
    db := { st.db with
            files := applyBatch st.db.files st.batch
            fts := applyFtsRows st.db.fts st.ftsBatch }
    batch := []
    ftsBatch := [] }

/-- The unchanged fast path (lines 657-678): backfill the FTS entry when it
is missing (re-extracting eligible content), flushing the FTS batch at 800;
then record the hash as seen and count the file as unchanged.  The primary
`files` row is never touched. -/
def fastPath (cfg : Config) (args : Args) (st : ScanState) (f : FInfo) (jid fh : String) :
    ScanState :=
  let st1 :=
    if !args.dryRun then
      if st.db.fts.any (fun e => e.2 = fh) then st
      else
        let content := buildFtsContent cfg f jid
        let fb := st.ftsBatch ++ [(content, fh)]
        let c2 := { st.counters with ftsBackfilled := st.counters.ftsBackfilled + 1 }
        if 800 ≤ fb.length then
          { st with
            db := { st.db with fts := applyFtsRows st.db.fts fb }
            ftsBatch := []
            counters := c2 }
        else { st with ftsBatch := fb, counters := c2 }
    else st
  { st1 with
    seen := st1.seen ++ [fh]
    counters := { st1.counters with skippedUnchanged := st1.counters.skippedUnchanged + 1 } }

/-- The new/changed path (lines 680-712): ensure the job row on first
sighting in this run, queue the `FileRow` and its FTS content, flush at a
batch of 800. -/
def slowPath (cfg : Config) (args : Args) (now : String) (st : ScanState) (f : FInfo)
    (jid : String) (jy : Option Int) (qver : Option Nat) (job_root : List String)
    (fh : String) : ScanState :=
  let st1 :=
    if !(st.perJobRoots.any (fun kv => kv.1 = jid)) then
      { st with
        perJobRoots := st.perJobRoots ++ [(jid, pathStr job_root)]
        db := if !args.dryRun
              then { st.db with jobs := ensure_job st.db.jobs jid (pathStr job_root) jy now }
              else st.db }
    else st
  let row := mkRow cfg f jid qver job_root
  let st2 := { st1 with
               batch := st1.batch ++ [row]
               seen := st1.seen ++ [fh]
               counters := { st1.counters with indexed := st1.counters.indexed + 1 } }
  let content := buildFtsContent cfg f jid
  let st3 := if !args.dryRun then { st2 with ftsBatch := st2.ftsBatch ++ [(content, fh)] }
             else st2
  if 800 ≤ st3.batch.length ∧ !args.dryRun then flushState st3 else st3

/-- One iteration of the scan loop: count the file, honour `--limit`
(the breaking file is counted but not processed), then dispatch. -/
def processFile (cfg : Config) (args : Args) (now : String) (st : ScanState) (f : FInfo) :
    ScanState :=
  if st.stopped then st
  else
    let c := { st.counters with totalScanned := st.counters.totalScanned + 1 }
    if args.limit ≠ 0 ∧ args.limit < c.totalScanned then
      { st with counters := c, stopped := true }
    else
      let st1 := { st with counters := c }
      match stepKind cfg args st1.db.files f with
      | StepKind.skipExt =>
          { st1 with counters := { st1.counters with
              skippedIgnoredExt := st1.counters.skippedIgnoredExt + 1 } }
      | StepKind.skipDir =>
          { st1 with counters := { st1.counters with
              skippedIgnoredDir := st1.counters.skippedIgnoredDir + 1 } }
      | StepKind.skipStat => st1
      | StepKind.skipNoJob =>
          { st1 with counters := { st1.counters with
              skippedNoJob := st1.counters.skippedNoJob + 1 } }
      | StepKind.skipOutOfYear =>
          { st1 with counters := { st1.counters with
              skippedOutOfYear := st1.counters.skippedOutOfYear + 1 } }
      | StepKind.fast jid => fastPath cfg args st1 f jid (fhOf f)
      | StepKind.slow jid jy qver root => slowPath cfg args now st1 f jid jy qver root (fhOf f)

/-- The scan loop over the walked tree, plus the tail flush (which the
source performs only when the `files` batch is nonempty — a pending
FTS-only batch is not flushed at end of run). -/
def runScan (cfg : Config) (args : Args) (now : String) (tree : List FInfo) (db0 : Db) :
    ScanState :=
  let st := tree.foldl (processFile cfg args now) { db := db0 }
  if st.batch ≠ [] ∧ !args.dryRun then flushState st else st

/-- Result of one full `main` invocation (store, counters, rows tombstoned). -/
structure RunResult where
  db : Db
  counters : Counters
  deletedMarked : Nat
deriving Repr, DecidableEq

/-- One pipeline run (`main`, from the scan loop to the end): scan, tail
flush, the reconciliation pass (only on a complete scan: no row limit, not
dry, deletion not suppressed, not quote-scoped; `--quotes-only` also forces
`no_delete`), then per-touched-job rollups and the quote-revision FTS
cleanup. -/
def runIndexer (cfg : Config) (args : Args) (now : String) (tree : List FInfo) (db0 : Db) :
    RunResult :=
  let st := runScan cfg args now tree db0
  let noDel := args.noDelete || args.quotesOnly
  let dres :=
    if !args.dryRun ∧ args.limit = 0 ∧ !noDel ∧ !args.quotesOnly then
      mark_deleted_missing st.db st.seen args.yearMin args.yearMax
    else (st.db, 0)
  let db2 :=
    if !args.dryRun then
      cleanup_old_quote_versions ((st.perJobRoots.map (fun kv => kv.1)).foldl rollup_job_stats dres.1)
    else dres.1
  { db := db2, counters := st.counters, deletedMarked := dres.2 }

/-- A filesystem node for the walker.  For a directory, `try1`/`try2` say
whether the first and second `os.scandir` attempt succeed; every failure
kind behaves identically in `scandir_safe`, because its first clause
`except (FileNotFoundError, OSError)` also catches `PermissionError`
(a subclass of `OSError`), leaving the separate `except PermissionError`
clause unreachable. -/
inductive FsNode where
  | file (name : String)
  | dir (name : String) (try1 try2 : Bool) (children : List FsNode)
deriving Repr

mutual

/-- Size of a node, for the traversal termination measure. -/
def FsNode.sizeN : FsNode → Nat
  | FsNode.file _ => 1
  | FsNode.dir _ _ _ cs => 1 + sizeNList cs

/-- Total size of a node list. -/
def sizeNList : List FsNode → Nat
  | [] => 0
  | n :: rest => FsNode.sizeN n + sizeNList rest

end

/-- `scandir_safe`: attempt 0, then exactly one retry (after the
`time.sleep(0.05)` delay, which carries no modelled behaviour), then give
up with `None`. -/
def scandir_safe (try1 try2 : Bool) (children : List FsNode) : Option (List FsNode) :=
  if try1 then some children
  else if try2 then some children
  else none

/-- `denied`: case-insensitive prefix test against the deny list
(entries are pre-lowered, as in the source). -/
def deniedPath (deny : List String) (p : String) : Bool :=
  deny.any (fun d => startsWithStr (lowerStr p) d)

/-- OS housekeeping directory names skipped by the walker. -/
def houseKeepDirs : List String := ["$recycle.bin", "system volume information"]

/-- A pending stack entry: full path plus the directory's scan behaviour. -/
abbrev WalkItem := String × Bool × Bool × List FsNode

/-- Path of a child entry. -/
def childPath (base name : String) : String := base ++ pathSep ++ name

/-- Files of one successfully-scanned directory, in entry order (the inner
per-entry `try/except` skips are not modelled as no claim involves them). -/
def filesOfEntries (p : String) (entries : List FsNode) : List String :=
  entries.filterMap (fun e =>
    match e with
    | FsNode.file name => some (childPath p name)
    | FsNode.dir _ _ _ _ => none)

/-- Subdirectories of one scanned directory pushed onto the stack, in entry
order, minus housekeeping names and denied paths. -/
def subsOfEntries (deny : List String) (p : String) (entries : List FsNode) : List WalkItem :=
  entries.filterMap (fun e =>
    match e with
    | FsNode.file _ => none
    | FsNode.dir name s1 s2 ccs =>
        if houseKeepDirs.contains (lowerStr name) then none
        else if deniedPath deny (childPath p name) then none
        else some (childPath p name, s1, s2, ccs))

/-- Termination measure of one stack entry. -/
def itemMeasure (it : WalkItem) : Nat := 1 + sizeNList it.2.2.2

/-- Termination measure of the stack. -/
def stackMeasure (stk : List WalkItem) : Nat := (stk.map itemMeasure).sum

theorem sizeN_pos (n : FsNode) : 1 ≤ n.sizeN := by
  cases n <;> simp [FsNode.sizeN]

theorem stackMeasure_filterMap_le (g : FsNode → Option WalkItem) (l : List FsNode)
    (hg : ∀ e x, g e = some x → itemMeasure x ≤ FsNode.sizeN e) :
    stackMeasure (l.filterMap g) ≤ sizeNList l := by
  induction l with
  | nil => simp [stackMeasure]
  | cons e rest ih =>
      have he := sizeN_pos e
      cases h : g e with
      | none =>
          simp only [List.filterMap_cons, h, sizeNList]
          omega
      | some x =>
          have hx := hg e x h
          simp only [List.filterMap_cons, h, sizeNList, stackMeasure, List.map_cons,
            List.sum_cons]
          simp only [stackMeasure] at ih
          omega

theorem subsOfEntries_measure_le (deny : List String) (p : String) (entries : List FsNode) :
    stackMeasure (subsOfEntries deny p entries) ≤ sizeNList entries := by
  apply stackMeasure_filterMap_le
  intro e x h
  cases e with
  | file name => simp at h
  | dir name s1 s2 ccs =>
      simp at h
      obtain ⟨-, -, hx⟩ := h
      subst hx
      simp [itemMeasure, FsNode.sizeN]

theorem stackMeasure_append (a b : List WalkItem) :
    stackMeasure (a ++ b) = stackMeasure a + stackMeasure b := by
  simp [stackMeasure]

theorem stackMeasure_reverse (a : List WalkItem) :
    stackMeasure a.reverse = stackMeasure a := by
  simp only [stackMeasure, List.map_reverse, List.sum_reverse]

theorem scandir_safe_some {t1 t2 : Bool} {cs entries : List FsNode}
    (h : scandir_safe t1 t2 cs = some entries) : entries = cs := by
  unfold scandir_safe at h
  split_ifs at h <;> simp_all

/-- The explicit-stack traversal loop of `walk_files`: pop a directory,
enumerate it via `scandir_safe` (skipping it silently when both attempts
fail), yield its files, push its subdirectories (the list head is the top
of the stack, so pushed children are traversed last-pushed first, as
`list.append`/`list.pop()` do). -/
def walkLoop (deny : List String) (stk : List WalkItem) : List String :=
  match stk with
  | [] => []
  | (p, t1, t2, cs) :: rest =>
      match hscan : scandir_safe t1 t2 cs with
      | none => walkLoop deny rest
      | some entries =>
          filesOfEntries p entries ++
            walkLoop deny ((subsOfEntries deny p entries).reverse ++ rest)
termination_by stackMeasure stk
decreasing_by
  · simp only [stackMeasure, List.map_cons, List.sum_cons, itemMeasure]
    omega
  · have h1 := subsOfEntries_measure_le deny p entries
    have h2 : entries = cs := scandir_safe_some hscan
    subst h2
    simp only [stackMeasure_append, stackMeasure_reverse]
    simp only [stackMeasure, List.map_cons, List.sum_cons, itemMeasure] at *
    omega

/-- Year-restricted scan policy of the walker (`scan_policy`), with the
default `year_dir_regex` (`^\d{4}$`). -/
structure ScanPolicy where
  yearOnly : Bool := false
  yearMin : Int := 1900
  yearMax : Int := 2100
deriving Repr, DecidableEq

/-- One configured root: its path string, whether `rootp.exists()`, and its
directory behaviour. -/
structure RootSpec where
  path : String
  rootExists : Bool := true
  try1 : Bool := true
  try2 : Bool := true
  children : List FsNode := []

/-- `push_children_year_dirs`: a single, unretried scan of the root keeping
only year-named child directories in range and not denied (the default
`^\d{4}$` name test). -/
def yearChildren (deny : List String) (policy : ScanPolicy) (r : RootSpec) : List WalkItem :=
  if !r.try1 then []
  else
    r.children.filterMap (fun e =>
      match e with
      | FsNode.file _ => none
      | FsNode.dir name s1 s2 ccs =>
          if (name.length = 4 ∧ name.toList.all Char.isDigit) then
            let yr : Int := ((strToNat? name).getD 0 : Nat)
            if yr < policy.yearMin ∨ yr > policy.yearMax then none
            else if deniedPath deny (childPath r.path name) then none
            else some (childPath r.path name, s1, s2, ccs)
          else none)

/-- `walk_files`: for each root that exists and is not denied, seed the
stack (year-restricted or the root itself) and run the traversal loop;
roots yield their files in configuration order. -/
def walk_files (deny : List String) (policy : ScanPolicy) (roots : List RootSpec) :
    List String :=
  roots.flatMap (fun r =>
    if !r.rootExists || deniedPath deny r.path then []
    else
      let stack0 := if policy.yearOnly then yearChildren deny policy r
                    else [(r.path, r.try1, r.try2, r.children)]
      walkLoop deny stack0)

/-! Helper lemmas. -/

theorem find?_range'_eq_some {p : Nat → Bool} :
    ∀ (s n i : Nat), s ≤ i → i < s + n → p i = true →
      (∀ j, s ≤ j → j < i → p j = false) → (List.range' s n).find? p = some i := by
  intro s n
  induction n generalizing s with
  | zero => intro i h1 h2 _ _; omega
  | succ n ih =>
      intro i h1 h2 hp hmin
      rw [List.range'_succ]
      by_cases hsi : i = s
      · subst hsi
        exact List.find?_cons_of_pos _ hp
      · have hps : p s = false := hmin s (Nat.le_refl s) (by omega)
        rw [List.find?_cons_of_neg _ (by simp [hps])]
        exact ih (s + 1) i (by omega) (by omega) hp (fun j hj1 hj2 => hmin j (by omega) hj2)

theorem find?_range_eq_some {p : Nat → Bool} {n i : Nat}
    (hi : i < n) (hp : p i = true) (hmin : ∀ j, j < i → p j = false) :
    (List.range n).find? p = some i := by
  rw [List.range_eq_range']
  exact find?_range'_eq_some 0 n i (Nat.zero_le i) (by omega) hp
    (fun j _ hj2 => hmin j hj2)

theorem jobPatAt_lt_length {s : List Char} {i : Nat} (h : jobPatAt s i = true) :
    i < s.length := by
  by_contra hge
  push_neg at hge
  have hdrop : s.drop i = [] := List.drop_eq_nil_of_le hge
  simp [jobPatAt, hdrop] at h

/-! C2.  The claim says the classifier resolves the job id of the nearest
(closest to the file) matching ancestor.  In the source,
`parse_job_id_from_path` runs `re.search` over the full path string on the
very first loop iteration, so the leftmost — outermost, closest to the
filesystem root — occurrence of the job pattern wins whenever the path
contains one at all.  The claim's concrete example still resolves to
`101-23`, because that path contains only one job-pattern occurrence. -/

/-- A path whose ancestry has two job-pattern directories: `202-24` is the
nearest matching ancestor, `101-23` the outermost. -/
def c2TwoJobPath : List String := ["P:", "JOBS", "101-23", "sub", "202-24", "file.pdf"]

/-- Modelled from the spec: the nearest matching ancestor rule the claim
describes — ascend from the file's parent and return the job-pattern match
of the first ancestor whose own name contains one. -/
def specNearestJobId (segs : List String) : Option String :=
  (segs.dropLast :: parentsOf segs).findSome? (fun pr => jobSearch (lastName pr).toList)

/-- C2 counterexample: on a path with two job-pattern directories in its
ancestry the nearest matching ancestor is `202-24`, but the classifier
returns `101-23` — the outermost match, not the nearest one. -/
theorem c2_nearest_counterexample :
    specNearestJobId c2TwoJobPath = some "202-24" ∧
    parse_job_id_from_path c2TwoJobPath = some "101-23" ∧
    parse_job_id_from_path c2TwoJobPath ≠ specNearestJobId c2TwoJobPath := by
  refine ⟨by decide, by decide, by decide⟩

/-- C2 (amended): the classifier resolves the job id at the leftmost
occurrence of the job pattern in the full path string — the outermost
matching ancestor wins, not the nearest; the example path
`.../101-23/.../QUOTES/2024/doc.pdf` still resolves to `101-23`. -/
theorem c2_job_id_leftmost (segs : List String) (i : Nat)
    (h1 : jobPatAt (pathStr segs).toList i = true)
    (h2 : ∀ j, j < i → jobPatAt (pathStr segs).toList j = false) :
    parse_job_id_from_path segs =
      some (String.mk (((pathStr segs).toList.drop i).take 6)) := by
  have hlen : i < (pathStr segs).toList.length := jobPatAt_lt_length h1
  have hsearch : jobSearch (pathStr segs).toList =
      some (String.mk (((pathStr segs).toList.drop i).take 6)) := by
    unfold jobSearch jobSearchPos
    rw [find?_range_eq_some hlen h1 h2]
  unfold parse_job_id_from_path
  rw [List.findSome?_cons, hsearch]

/-- C2 witness: the claim's example path, resolved through the amended
theorem at the leftmost match position (8). -/
theorem c2_job_id_leftmost_witness :
    parse_job_id_from_path ["P:", "JOBS", "101-23", "job docs", "QUOTES", "2024", "doc.pdf"]
      = some "101-23" := by
  have h := c2_job_id_leftmost
    ["P:", "JOBS", "101-23", "job docs", "QUOTES", "2024", "doc.pdf"] 8
    (by decide) (by decide)
  rw [h]
  decide

/-! C6.  Quote classification: under a configured quote root whose first
segment below the root is a year directory inside the configured window,
with a quote number found in the nearest quote-token ancestor folder (or,
failing that, the filename stem), the classifier produces
`Q<num>-<two-digit year>` and the parsed revision, defaulting to 0. -/

/-- The year value of a year-directory name. -/
def yearValOf (y : String) : Int := ((strToNat? y).getD 0 : Nat)

/-- C6: quote resolution combines the quote number with the two-digit year
and the dot-revision (0 when absent), exactly as the claim states. -/
theorem c6_quote_resolution (root rest : List String) (y num : String) (ver : Option Nat)
    (ymin ymax : Int)
    (hy : yearDirMatch y = true)
    (hlo : ymin ≤ yearValOf y) (hhi : yearValOf y ≤ ymax)
    (hq : quoteTarget (root ++ y :: rest) = some (num, ver)) :
    ∃ ctx, parse_quote_context (root ++ y :: rest) [root] ymin ymax = some ctx ∧
      ctx.job_id = "Q" ++ num ++ "-" ++ fmt02 ((yearValOf y % 100).toNat) ∧
      ctx.jy = yearValOf y ∧
      ctx.qver = ver.getD 0 := by
  have hpre : root.isPrefixOf (root ++ y :: rest) = true := by
    rw [List.isPrefixOf_iff_prefix]
    exact List.prefix_append root (y :: rest)
  have hrel : quoteRootRel root (root ++ y :: rest) = some (y :: rest) := by
    simp [quoteRootRel, hpre, List.drop_left]
  have hmain : parse_quote_context (root ++ y :: rest) [root] ymin ymax =
      some { job_id := "Q" ++ num ++ "-" ++ fmt02 ((yearValOf y % 100).toNat)
             jy := yearValOf y
             job_root := (findQFolder (root ++ y :: rest)).getD (root ++ y :: rest).dropLast
             qver := ver.getD 0 } := by
    unfold parse_quote_context
    rw [List.findSome?_cons, hrel]
    simp only [hy, if_true, yearValOf] at hlo hhi ⊢
    rw [if_pos ⟨hlo, hhi⟩, hq]
  exact ⟨_, hmain, rfl, rfl, rfl⟩

/-- C6 witness: `.../QUOTES/2024/Q1234.2/quote.pdf` resolves to job id
`Q1234-24` with revision 2. -/
theorem c6_quote_resolution_witness :
    ∃ ctx, parse_quote_context ["P:", "QUOTES", "2024", "Q1234.2", "quote.pdf"]
        [["P:", "QUOTES"]] 2022 2100 = some ctx ∧
      ctx.job_id = "Q1234-24" ∧ ctx.jy = 2024 ∧ ctx.qver = 2 := by
  obtain ⟨ctx, hctx, hid, hjy, hqv⟩ :=
    c6_quote_resolution ["P:", "QUOTES"] ["Q1234.2", "quote.pdf"] "2024" "1234" (some 2)
      2022 2100 (by decide) (by decide) (by decide) (by decide)
  refine ⟨ctx, ?_, ?_, ?_, ?_⟩
  · exact hctx
  · rw [hid]; decide
  · rw [hjy]; decide
  · rw [hqv]; rfl

/-! C5.  Quote-revision retention, enforced by
`cleanup_old_quote_versions` at the end of every non-dry run. -/

/-- C5: after the retention pass, a superseded active quote PDF (one whose
job has an active quote PDF of strictly higher revision) keeps its Files
row — the files table is untouched — but no searchable-content row with its
identity key survives; FTS rows whose key belongs to no superseded row are
kept unchanged, so the highest-revision entries remain searchable. -/
theorem c5_revision_retention (db : Db) (f g : FileRec)
    (hf : f ∈ db.files) (hg : g ∈ db.files)
    (hfq : isActiveQuotePdf f = true) (hgq : isActiveQuotePdf g = true)
    (hjob : g.job_id = f.job_id) (hlt : qvOf f < qvOf g) :
    (cleanup_old_quote_versions db).files = db.files ∧
    f ∈ (cleanup_old_quote_versions db).files ∧
    (∀ row ∈ (cleanup_old_quote_versions db).fts, row.2 ≠ f.file_hash16) ∧
    (∀ row ∈ db.fts,
      (∀ h2 ∈ db.files, supersededQuote db.files h2 = true → h2.file_hash16 ≠ row.2) →
      row ∈ (cleanup_old_quote_versions db).fts) := by
  have hsup : supersededQuote db.files f = true := by
    unfold supersededQuote
    rw [hfq]
    simp only [Bool.true_and, List.any_eq_true]
    exact ⟨g, hg, by simp [hgq, hjob, hlt]⟩
  refine ⟨rfl, hf, ?_, ?_⟩
  · intro row hrow heq
    unfold cleanup_old_quote_versions at hrow
    simp only [List.mem_filter, Bool.not_eq_true'] at hrow
    obtain ⟨-, hnone⟩ := hrow
    rw [List.any_eq_false] at hnone
    have := hnone f hf
    simp [hsup, heq] at this
  · intro row hrow hkeep
    unfold cleanup_old_quote_versions
    simp only [List.mem_filter, Bool.not_eq_true']
    refine ⟨hrow, ?_⟩
    rw [List.any_eq_false]
    intro fl hfl
    simp only [Bool.and_eq_true, decide_eq_true_eq, not_and]
    intro hsup2 hhash
    exact hkeep fl hfl hsup2 hhash

/-- C5 witness: a store holding `Q1234-24` revisions 1 and 2 with both FTS
entries; the retention pass removes revision 1's entry and keeps its row. -/
def c5Row1 : FileRec :=
  { file_hash16 := "h1", job_id := "Q1234-24", rel_path := "quote.pdf", ext := ".pdf",
    size_bytes := 7, mtime_utc := "t1", kind := "pdf", tokens_fname := "quote pdf",
    detector_hits := "pdf", deleted := 0, q_version := some 1 }

def c5Row2 : FileRec :=
  { file_hash16 := "h2", job_id := "Q1234-24", rel_path := "quote.pdf", ext := ".pdf",
    size_bytes := 5, mtime_utc := "t2", kind := "pdf", tokens_fname := "quote pdf",
    detector_hits := "pdf", deleted := 0, q_version := some 2 }

def c5Db : Db := { files := [c5Row1, c5Row2], fts := [("old text", "h1"), ("new text", "h2")] }

theorem c5_revision_retention_witness :
    (cleanup_old_quote_versions c5Db).files = c5Db.files ∧
    c5Row1 ∈ (cleanup_old_quote_versions c5Db).files ∧
    (∀ row ∈ (cleanup_old_quote_versions c5Db).fts, row.2 ≠ c5Row1.file_hash16) ∧
    (∀ row ∈ c5Db.fts,
      (∀ h2 ∈ c5Db.files, supersededQuote c5Db.files h2 = true → h2.file_hash16 ≠ row.2) →
      row ∈ (cleanup_old_quote_versions c5Db).fts) :=
  c5_revision_retention c5Db c5Row1 c5Row2 (by decide) (by decide) (by decide) (by decide)
    (by decide) (by decide)

/-! C3.  Reconciliation and rollup: the delete pass of a complete run
(`mark_deleted_missing`, with the year window `main` always passes) and the
per-job aggregate recomputation (`rollup_job_stats`). -/

/-- C3: an active row whose owning job's year is inside the run's window
and whose identity key was not observed is soft-deleted — its row, with the
flag set, is still in the table, and every row carrying its key is flagged;
recomputing the owning job's aggregates then counts only active rows, none
of which carries the deleted record's key, so the record is excluded from
count, byte size and evidence flags. -/
theorem c3_soft_delete_and_rollup (db : Db) (seen : List String) (ymin ymax : Int)
    (f : FileRec) (hf : f ∈ db.files) (hact : f.deleted = 0)
    (hyear : jobYearInRange db.jobs f.job_id ymin ymax = true)
    (hunseen : seen.contains f.file_hash16 = false) :
    ({ f with deleted := 1 } ∈ (mark_deleted_missing db seen ymin ymax).1.files) ∧
    (∀ g ∈ (mark_deleted_missing db seen ymin ymax).1.files,
        g.file_hash16 = f.file_hash16 → g.deleted = 1) ∧
    (∀ g ∈ activeOfJob (mark_deleted_missing db seen ymin ymax).1.files f.job_id,
        g.file_hash16 ≠ f.file_hash16) ∧
    (∃ j ∈ (rollup_job_stats (mark_deleted_missing db seen ymin ymax).1 f.job_id).jobs,
        j.job_id = f.job_id) ∧
    (∀ j ∈ (rollup_job_stats (mark_deleted_missing db seen ymin ymax).1 f.job_id).jobs,
        j.job_id = f.job_id →
        j.file_count_total =
          some ((activeOfJob (mark_deleted_missing db seen ymin ymax).1.files f.job_id).length : Int) ∧
        j.byte_size_total =
          some (((activeOfJob (mark_deleted_missing db seen ymin ymax).1.files f.job_id).map
            (fun fl => fl.size_bytes)).sum) ∧
        j.has_pdf =
          some (b2n ((activeOfJob (mark_deleted_missing db seen ymin ymax).1.files f.job_id).any
            pdfEvidence))) := by
  set db' := (mark_deleted_missing db seen ymin ymax).1 with hdb'
  have hunseen' : f.file_hash16 ∉ seen := by simpa using hunseen
  have hsel : f.file_hash16 ∈ ((db.files.filter (fun fl =>
      fl.deleted = 0 && jobYearInRange db.jobs fl.job_id ymin ymax &&
      !(seen.contains fl.file_hash16))).map (fun fl => fl.file_hash16)) := by
    refine List.mem_map.mpr ⟨f, ?_, rfl⟩
    refine List.mem_filter.mpr ⟨hf, ?_⟩
    simp [hact, hyear, hunseen']
  have hfiles : db'.files = db.files.map (fun fl =>
      if fl.file_hash16 ∈ ((db.files.filter (fun fl =>
        fl.deleted = 0 && jobYearInRange db.jobs fl.job_id ymin ymax &&
        !(seen.contains fl.file_hash16))).map (fun fl => fl.file_hash16))
      then { fl with deleted := 1 } else fl) := rfl
  have hmem1 : ({ f with deleted := 1 } : FileRec) ∈ db'.files := by
    rw [hfiles]
    refine List.mem_map.mpr ⟨f, hf, ?_⟩
    rw [if_pos hsel]
  have hmem2 : ∀ g ∈ db'.files, g.file_hash16 = f.file_hash16 → g.deleted = 1 := by
    intro g hg heq
    rw [hfiles] at hg
    obtain ⟨g0, hg0, hg0eq⟩ := List.mem_map.mp hg
    by_cases hc : g0.file_hash16 ∈ ((db.files.filter (fun fl =>
        fl.deleted = 0 && jobYearInRange db.jobs fl.job_id ymin ymax &&
        !(seen.contains fl.file_hash16))).map (fun fl => fl.file_hash16))
    · rw [if_pos hc] at hg0eq
      rw [← hg0eq]
    · rw [if_neg hc] at hg0eq
      subst hg0eq
      rw [heq] at hc
      exact absurd hsel hc
  refine ⟨hmem1, hmem2, ?_, ?_, ?_⟩
  · intro g hg heq
    have hgact := (List.mem_filter.mp hg).2
    have hgmem := (List.mem_filter.mp hg).1
    simp only [Bool.and_eq_true, decide_eq_true_eq] at hgact
    have := hmem2 g hgmem heq
    omega
  · -- the job row exists because `jobYearInRange` found one, and neither
    -- pass removes jobs rows
    unfold jobYearInRange at hyear
    simp only [List.any_eq_true, Bool.and_eq_true, decide_eq_true_eq] at hyear
    obtain ⟨j, hj, hjid, -⟩ := hyear
    refine ⟨if j.job_id = f.job_id then
      { j with file_count_total := some ((activeOfJob db'.files f.job_id).length : Int),
               byte_size_total := some (((activeOfJob db'.files f.job_id).map
                 (fun fl => fl.size_bytes)).sum),
               has_pdf := some (b2n ((activeOfJob db'.files f.job_id).any pdfEvidence)),
               has_dwg_dxf := some (b2n ((activeOfJob db'.files f.job_id).any cadEvidence)),
               has_compress := some (b2n ((activeOfJob db'.files f.job_id).any
                 (fun fl => hitHas fl.detector_hits "compress"))),
               has_ame := some (b2n ((activeOfJob db'.files f.job_id).any
                 (fun fl => hitHas fl.detector_hits "ametank"))),
               has_legacy_calc := some (b2n ((activeOfJob db'.files f.job_id).any
                 (fun fl => hitHas fl.detector_hits "legacy_calc"))),
               last_modified_utc := maxMt ((activeOfJob db'.files f.job_id).map
                 (fun fl => fl.mtime_utc)) }
      else j, ?_, ?_⟩
    · unfold rollup_job_stats
      exact List.mem_map.mpr ⟨j, hj, rfl⟩
    · rw [if_pos hjid]
      exact hjid
  · intro j hj hjid
    unfold rollup_job_stats at hj
    obtain ⟨j0, hj0, hj0eq⟩ := List.mem_map.mp hj
    by_cases hc : j0.job_id = f.job_id
    · rw [if_pos hc] at hj0eq
      refine ⟨?_, ?_, ?_⟩ <;> rw [← hj0eq]
    · rw [if_neg hc] at hj0eq
      subst hj0eq
      exact absurd hjid hc

/-- Concrete store for the C3 witness: one active file of job `101-23`
(year 2023), absent from the run's observed set. -/
def c3Row : FileRec :=
  { file_hash16 := "h1", job_id := "101-23", rel_path := "calc.pdf", ext := ".pdf",
    size_bytes := 10, mtime_utc := "t1", kind := "pdf", tokens_fname := "calc pdf",
    detector_hits := "pdf", deleted := 0, q_version := none }

def c3Db : Db :=
  { files := [c3Row],
    jobs := [{ job_id := "101-23", root_path := "P:/JOBS/101-23", job_year := some 2023 }] }

theorem c3_soft_delete_and_rollup_witness :
    ({ c3Row with deleted := 1 } ∈ (mark_deleted_missing c3Db [] 2015 2025).1.files) ∧
    (∀ g ∈ (mark_deleted_missing c3Db [] 2015 2025).1.files,
        g.file_hash16 = c3Row.file_hash16 → g.deleted = 1) ∧
    (∀ g ∈ activeOfJob (mark_deleted_missing c3Db [] 2015 2025).1.files c3Row.job_id,
        g.file_hash16 ≠ c3Row.file_hash16) ∧
    (∃ j ∈ (rollup_job_stats (mark_deleted_missing c3Db [] 2015 2025).1 c3Row.job_id).jobs,
        j.job_id = c3Row.job_id) ∧
    (∀ j ∈ (rollup_job_stats (mark_deleted_missing c3Db [] 2015 2025).1 c3Row.job_id).jobs,
        j.job_id = c3Row.job_id →
        j.file_count_total =
          some ((activeOfJob (mark_deleted_missing c3Db [] 2015 2025).1.files c3Row.job_id).length : Int) ∧
        j.byte_size_total =
          some (((activeOfJob (mark_deleted_missing c3Db [] 2015 2025).1.files c3Row.job_id).map
            (fun fl => fl.size_bytes)).sum) ∧
        j.has_pdf =
          some (b2n ((activeOfJob (mark_deleted_missing c3Db [] 2015 2025).1.files c3Row.job_id).any
            pdfEvidence))) :=
  c3_soft_delete_and_rollup c3Db [] 2015 2025 c3Row (by decide) (by decide) (by decide)
    (by decide)

/-! C9.  Enumeration failures in the walker: `scandir_safe` retries once,
then the directory is skipped — but silently: neither `walk_files` nor
`main` has any counter for skipped directories, so the claim's "increments
a counter" has nothing in the code to back it. -/

/-- C9 (amended): an enumeration failure of a stacked directory is retried
exactly once (a first-attempt success never consults the retry; a
first-attempt failure uses the second attempt; a second failure yields
`none`), after which the directory is skipped silently — the traversal
simply continues with the remaining stack, never aborting the walk — and no
counter records the skip. -/
theorem c9_enumeration_retry_and_skip :
    (∀ (t2 : Bool) (cs : List FsNode), scandir_safe true t2 cs = some cs) ∧
    (∀ cs : List FsNode, scandir_safe false true cs = some cs) ∧
    (∀ cs : List FsNode, scandir_safe false false cs = none) ∧
    (∀ (deny : List String) (p : String) (cs : List FsNode) (rest : List WalkItem),
        walkLoop deny ((p, false, false, cs) :: rest) = walkLoop deny rest) := by
  refine ⟨fun t2 cs => rfl, fun cs => rfl, fun cs => rfl, fun deny p cs rest => ?_⟩
  rw [walkLoop]
  simp [scandir_safe]

/-- The directory whose enumeration fails twice, holding a file. -/
def c9BadDir : FsNode := FsNode.dir "limbo" false false [FsNode.file "ghost.pdf"]

/-- The same directory with healthy enumeration. -/
def c9OkDir : FsNode := FsNode.dir "limbo" true true [FsNode.file "ghost.pdf"]

def c9Root (d : List FsNode) : RootSpec :=
  { path := "P:",
    children := [FsNode.dir "JOBS" true true
      [FsNode.dir "101-23" true true ([FsNode.file "a.pdf"] ++ d)]] }

/-- Rebuild walker output into scan-loop input. -/
def c9Tree (r : RootSpec) : List FInfo :=
  (walk_files [] {} [r]).map (fun s =>
    { segs := splitChars s (fun c => c = '/'), statOk := true, size := 1, mtime := "t" })

theorem c9_walk_failing : walk_files [] {} [c9Root [c9BadDir]] =
    ["P:/JOBS/101-23/a.pdf"] := by
  simp [walk_files, c9Root, c9BadDir, walkLoop, scandir_safe, filesOfEntries,
    subsOfEntries, deniedPath, houseKeepDirs, childPath, pathSep, lowerStr,
    startsWithStr]

theorem c9_walk_healthy : walk_files [] {} [c9Root [c9OkDir]] =
    ["P:/JOBS/101-23/a.pdf", "P:/JOBS/101-23/limbo/ghost.pdf"] := by
  simp [walk_files, c9Root, c9OkDir, walkLoop, scandir_safe, filesOfEntries,
    subsOfEntries, deniedPath, houseKeepDirs, childPath, pathSep, lowerStr,
    startsWithStr]

theorem c9_walk_absent : walk_files [] {} [c9Root []] =
    ["P:/JOBS/101-23/a.pdf"] := by
  simp [walk_files, c9Root, walkLoop, scandir_safe, filesOfEntries,
    subsOfEntries, deniedPath, houseKeepDirs, childPath, pathSep, lowerStr,
    startsWithStr]

/-- C9 counterexample: a run over a tree containing a directory whose
enumeration fails twice produces exactly the same files and exactly the
same counters as a run over the tree with that directory absent — the
skipped directory (which did hold a file, as the healthy walk shows) is
counted nowhere, refuting the claim's "increments a counter". -/
theorem c9_no_counter_counterexample :
    walk_files [] {} [c9Root [c9BadDir]] = walk_files [] {} [c9Root []] ∧
    walk_files [] {} [c9Root [c9OkDir]] ≠ walk_files [] {} [c9Root [c9BadDir]] ∧
    (runIndexer {} {} "now" (c9Tree (c9Root [c9BadDir])) {}).counters =
      (runIndexer {} {} "now" (c9Tree (c9Root [])) {}).counters := by
  refine ⟨?_, ?_, ?_⟩
  · rw [c9_walk_failing, c9_walk_absent]
  · rw [c9_walk_healthy, c9_walk_failing]
    decide
  · have h : c9Tree (c9Root [c9BadDir]) = c9Tree (c9Root []) := by
      unfold c9Tree
      rw [c9_walk_failing, c9_walk_absent]
    rw [h]

/-! Dispatch lemmas for the scan-loop step. -/

theorem processFile_fast (cfg : Config) (args : Args) (now : String) (st : ScanState)
    (f : FInfo) (jid : String)
    (hstop : st.stopped = false) (hlim : args.limit = 0)
    (hkind : stepKind cfg args st.db.files f = StepKind.fast jid) :
    processFile cfg args now st f =
      fastPath cfg args
        { st with counters := { st.counters with
            totalScanned := st.counters.totalScanned + 1 } }
        f jid (fhOf f) := by
  unfold processFile
  simp only [hstop, hlim, Bool.false_eq_true, if_false, ne_eq, not_true_eq_false,
    false_and, hkind]

theorem processFile_slow (cfg : Config) (args : Args) (now : String) (st : ScanState)
    (f : FInfo) (jid : String) (jy : Option Int) (qver : Option Nat) (root : List String)
    (hstop : st.stopped = false) (hlim : args.limit = 0)
    (hkind : stepKind cfg args st.db.files f = StepKind.slow jid jy qver root) :
    processFile cfg args now st f =
      slowPath cfg args now
        { st with counters := { st.counters with
            totalScanned := st.counters.totalScanned + 1 } }
        f jid jy qver root (fhOf f) := by
  unfold processFile
  simp only [hstop, hlim, Bool.false_eq_true, if_false, ne_eq, not_true_eq_false,
    false_and, hkind]

/-- The decision chain never reads the two content oracles. -/
theorem stepKind_content_irrel (cfg : Config) (args : Args) (files : List FileRec)
    (f : FInfo) (doc : Option (List String)) (oraw : Option String) :
    stepKind cfg args files { f with pdfDoc := doc, officeRaw := oraw } =
      stepKind cfg args files f := by
  cases f
  rfl

/-! C7.  The unchanged fast path.  The claim's "performs no content
extraction" is false when the searchable-content entry is missing: the
backfill branch re-runs the PDF/office extractors to rebuild the entry.
Everything else holds: the primary `files` row and the pending row batch
are untouched in both cases, the present-entry case reads no content at
all, and the missing-entry case queues exactly one searchable-content row
for the file's key. -/

/-- C7 (amended): for a file whose stored size and modification time both
match, the primary Files record is left unchanged (neither the table nor
the pending batch changes, and the jobs table is untouched); when the
searchable-content entry is present no content extraction happens — the
outcome is independent of the file's content — and when it is missing a
searchable-content entry (re-extracted content) is queued for the file's
key without modifying the primary record. -/
theorem c7_unchanged_fast_path (cfg : Config) (args : Args) (now : String)
    (st : ScanState) (f : FInfo) (jid : String)
    (hstop : st.stopped = false) (hdry : args.dryRun = false) (hlim : args.limit = 0)
    (hkind : stepKind cfg args st.db.files f = StepKind.fast jid)
    (hroom : st.ftsBatch.length + 1 < 800) :
    ((processFile cfg args now st f).db.files = st.db.files ∧
     (processFile cfg args now st f).batch = st.batch ∧
     (processFile cfg args now st f).db.jobs = st.db.jobs) ∧
    ((st.db.fts.any (fun e => e.2 = fhOf f)) = true →
      (∀ (doc : Option (List String)) (oraw : Option String),
        processFile cfg args now st { f with pdfDoc := doc, officeRaw := oraw } =
          processFile cfg args now st f) ∧
      processFile cfg args now st f =
        { st with
          seen := st.seen ++ [fhOf f]
          counters := { st.counters with
            totalScanned := st.counters.totalScanned + 1
            skippedUnchanged := st.counters.skippedUnchanged + 1 } }) ∧
    ((st.db.fts.any (fun e => e.2 = fhOf f)) = false →
      (processFile cfg args now st f).ftsBatch =
        st.ftsBatch ++ [(buildFtsContent cfg f jid, fhOf f)] ∧
      (processFile cfg args now st f).db = st.db ∧
      (processFile cfg args now st f).seen = st.seen ++ [fhOf f]) := by
  have hdisp := processFile_fast cfg args now st f jid hstop hlim hkind
  by_cases hfts : (st.db.fts.any (fun e => e.2 = fhOf f)) = true
  · have hval : processFile cfg args now st f =
        { st with
          seen := st.seen ++ [fhOf f]
          counters := { st.counters with
            totalScanned := st.counters.totalScanned + 1
            skippedUnchanged := st.counters.skippedUnchanged + 1 } } := by
      rw [hdisp]
      unfold fastPath
      simp only [hdry, Bool.not_false, if_true, hfts]
    refine ⟨by rw [hval]; exact ⟨rfl, rfl, rfl⟩, ?_, ?_⟩
    · intro _
      refine ⟨?_, hval⟩
      intro doc oraw
      have hkind2 : stepKind cfg args st.db.files { f with pdfDoc := doc, officeRaw := oraw } =
          StepKind.fast jid := by rw [stepKind_content_irrel]; exact hkind
      have hdisp2 := processFile_fast cfg args now st
        { f with pdfDoc := doc, officeRaw := oraw } jid hstop hlim hkind2
      have hfh2 : fhOf { f with pdfDoc := doc, officeRaw := oraw } = fhOf f := rfl
      rw [hdisp2, hval]
      unfold fastPath
      simp only [hdry, Bool.not_false, if_true, hfh2, hfts]
    · intro hcon
      rw [hfts] at hcon
      cases hcon
  · rw [Bool.not_eq_true] at hfts
    have hval : processFile cfg args now st f =
        { st with
          ftsBatch := st.ftsBatch ++ [(buildFtsContent cfg f jid, fhOf f)]
          seen := st.seen ++ [fhOf f]
          counters := { st.counters with
            totalScanned := st.counters.totalScanned + 1
            ftsBackfilled := st.counters.ftsBackfilled + 1
            skippedUnchanged := st.counters.skippedUnchanged + 1 } } := by
      rw [hdisp]
      unfold fastPath
      have hlen : ¬(800 ≤ (st.ftsBatch ++ [(buildFtsContent cfg f jid, fhOf f)]).length) := by
        simp only [List.length_append, List.length_cons, List.length_nil]
        omega
      simp only [hdry, Bool.not_false, if_true, hfts, Bool.false_eq_true, if_false, hlen]
    refine ⟨by rw [hval]; exact ⟨rfl, rfl, rfl⟩, ?_, ?_⟩
    · intro hcon
      rw [hfts] at hcon
      cases hcon
    · intro _
      rw [hval]
      exact ⟨rfl, rfl, rfl⟩

/-- Configuration for the C7/C8 concrete cases: PDF extraction on, with no
allow-token restriction. -/
def c7Cfg : Config := { pdfEnabled := true, fitzAvailable := true }

/-- The unchanged PDF: its stored row matches size and mtime exactly. -/
def c7File : FInfo :=
  { segs := ["P:", "JOBS", "101-23", "doc.pdf"], statOk := true, size := 10,
    mtime := "2024-01-01T00:00:00+00:00", pdfDoc := some ["SECRET BODY"], officeRaw := none }

def c7Row : FileRec :=
  { file_hash16 := "p:/jobs/101-23/doc.pdf", job_id := "101-23", rel_path := "doc.pdf",
    ext := ".pdf", size_bytes := 10, mtime_utc := "2024-01-01T00:00:00+00:00",
    kind := "pdf", tokens_fname := "doc pdf p jobs 101 23", detector_hits := "pdf",
    deleted := 0, q_version := none }

/-- Store state with the row present but its searchable entry missing. -/
def c7St : ScanState := { db := { files := [c7Row] } }

set_option maxRecDepth 4000 in
/-- C7 counterexample: with the searchable-content entry missing, the fast
path re-extracts content — two files identical except for their PDF body
produce different states (different backfilled searchable text), so "the
run performs no content extraction" is false for such a file even though
its size and mtime match. -/
theorem c7_extraction_counterexample :
    stepKind c7Cfg {} c7St.db.files c7File = StepKind.fast "101-23" ∧
    processFile c7Cfg {} "now" c7St { c7File with pdfDoc := some ["OTHER BODY"] } ≠
      processFile c7Cfg {} "now" c7St c7File := by
  refine ⟨by decide, by decide⟩

set_option maxRecDepth 4000 in
/-- C7 witness: the amended theorem applied at the concrete store, with the
searchable entry missing (backfill case). -/
theorem c7_unchanged_fast_path_witness :
    ((processFile c7Cfg {} "now" c7St c7File).db.files = c7St.db.files ∧
     (processFile c7Cfg {} "now" c7St c7File).batch = c7St.batch ∧
     (processFile c7Cfg {} "now" c7St c7File).db.jobs = c7St.db.jobs) ∧
    ((c7St.db.fts.any (fun e => e.2 = fhOf c7File)) = false →
      (processFile c7Cfg {} "now" c7St c7File).ftsBatch =
        c7St.ftsBatch ++ [(buildFtsContent c7Cfg c7File "101-23", fhOf c7File)] ∧
      (processFile c7Cfg {} "now" c7St c7File).db = c7St.db ∧
      (processFile c7Cfg {} "now" c7St c7File).seen = c7St.seen ++ [fhOf c7File]) := by
  have h := c7_unchanged_fast_path c7Cfg {} "now" c7St c7File "101-23" (by decide)
    (by decide) (by decide) (by decide) (by decide)
  exact ⟨h.1, h.2.2⟩

/-! C10.  The unchanged fast path recomputes neither tags nor kind nor
filename tokens, so a detector-configuration change cannot alter the
stored tags of an unchanged file. -/

/-- The decision chain never reads the detector map. -/
theorem stepKind_detectors_irrel (cfg : Config) (args : Args) (files : List FileRec)
    (f : FInfo) (d1 d2 : List (String × DetSpec)) :
    stepKind { cfg with detectors := d1 } args files f =
      stepKind { cfg with detectors := d2 } args files f := by
  cases cfg
  rfl

/-- The fast path never reads the detector map. -/
theorem fastPath_detectors_irrel (cfg : Config) (args : Args) (st : ScanState)
    (f : FInfo) (jid fh : String) (d1 d2 : List (String × DetSpec)) :
    fastPath { cfg with detectors := d1 } args st f jid fh =
      fastPath { cfg with detectors := d2 } args st f jid fh := by
  cases cfg
  rfl

/-- Frame of the fast path: only `db.fts`, `ftsBatch`, `seen` and counters
can change. -/
theorem fastPath_frame (cfg : Config) (args : Args) (st : ScanState) (f : FInfo)
    (jid fh : String) :
    (fastPath cfg args st f jid fh).db.files = st.db.files ∧
    (fastPath cfg args st f jid fh).db.jobs = st.db.jobs ∧
    (fastPath cfg args st f jid fh).batch = st.batch ∧
    (fastPath cfg args st f jid fh).perJobRoots = st.perJobRoots ∧
    (fastPath cfg args st f jid fh).stopped = st.stopped ∧
    (fastPath cfg args st f jid fh).seen = st.seen ++ [fh] := by
  unfold fastPath
  cases hdry : args.dryRun
  · simp only [hdry, Bool.not_false, if_true]
    by_cases hfts : (st.db.fts.any (fun e => e.2 = fh)) = true
    · simp [hfts]
    · rw [Bool.not_eq_true] at hfts
      simp only [hfts, Bool.false_eq_true, if_false]
      by_cases hlen : 799 ≤ st.ftsBatch.length
      · simp [hlen]
      · simp [hlen]
  · simp [hdry]

/-- Frame of the new/changed path when no flush triggers: the row and its
searchable content are queued, the hash recorded. -/
theorem slowPath_frame (cfg : Config) (args : Args) (now : String) (st : ScanState)
    (f : FInfo) (jid : String) (jy : Option Int) (qver : Option Nat) (root : List String)
    (fh : String)
    (hdry : args.dryRun = false) (hroom : st.batch.length + 1 < 800) :
    (slowPath cfg args now st f jid jy qver root fh).batch
        = st.batch ++ [mkRow cfg f jid qver root] ∧
    (slowPath cfg args now st f jid jy qver root fh).ftsBatch
        = st.ftsBatch ++ [(buildFtsContent cfg f jid, fh)] ∧
    (slowPath cfg args now st f jid jy qver root fh).seen = st.seen ++ [fh] ∧
    (slowPath cfg args now st f jid jy qver root fh).db.files = st.db.files ∧
    (slowPath cfg args now st f jid jy qver root fh).stopped = st.stopped := by
  have hlen2 : ¬ 799 ≤ st.batch.length := by omega
  unfold slowPath
  by_cases hpj : (st.perJobRoots.any (fun kv => kv.1 = jid)) = true <;>
    simp [hpj, hdry, hlen2]

/-- C10: for a file taking the unchanged fast path, the files table and the
pending row batch are untouched — so the stored tag set, kind and filename
tokens are not recomputed or rewritten — and the entire step result is
independent of the detector configuration. -/
theorem c10_detector_config_frame (cfg : Config) (args : Args) (now : String)
    (st : ScanState) (f : FInfo) (jid : String) (d1 d2 : List (String × DetSpec))
    (hstop : st.stopped = false) (hlim : args.limit = 0)
    (hkind : stepKind { cfg with detectors := d1 } args st.db.files f = StepKind.fast jid) :
    (processFile { cfg with detectors := d1 } args now st f).db.files = st.db.files ∧
    (processFile { cfg with detectors := d1 } args now st f).batch = st.batch ∧
    processFile { cfg with detectors := d1 } args now st f =
      processFile { cfg with detectors := d2 } args now st f := by
  have hkind2 : stepKind { cfg with detectors := d2 } args st.db.files f =
      StepKind.fast jid := by
    rw [← stepKind_detectors_irrel cfg args st.db.files f d1 d2]
    exact hkind
  have h1 := processFile_fast { cfg with detectors := d1 } args now st f jid hstop hlim hkind
  have h2 := processFile_fast { cfg with detectors := d2 } args now st f jid hstop hlim hkind2
  refine ⟨?_, ?_, ?_⟩
  · rw [h1]
    exact (fastPath_frame _ _ _ _ _ _).1
  · rw [h1]
    exact (fastPath_frame _ _ _ _ _ _).2.2.1
  · rw [h1, h2]
    exact fastPath_detectors_irrel cfg args _ f jid (fhOf f) d1 d2

set_option maxRecDepth 4000 in
/-- C10 witness: the concrete unchanged PDF of the C7 scenario, with the
default detector map against an emptied one. -/
theorem c10_detector_config_frame_witness :
    (processFile { c7Cfg with detectors := DEFAULT_DETECTORS } {} "now" c7St c7File).db.files
        = c7St.db.files ∧
    (processFile { c7Cfg with detectors := DEFAULT_DETECTORS } {} "now" c7St c7File).batch
        = c7St.batch ∧
    processFile { c7Cfg with detectors := DEFAULT_DETECTORS } {} "now" c7St c7File =
      processFile { c7Cfg with detectors := [] } {} "now" c7St c7File :=
  c10_detector_config_frame c7Cfg {} "now" c7St c7File "101-23" DEFAULT_DETECTORS []
    (by decide) (by decide) (by decide)

/-! C8.  Searchable text.  The claim's "filename/path tokens followed by
the extracted body, truncated to the configured character budget" reads as
truncation of the final text; the source truncates only the extracted body
(inside `extract_pdf_text`) before appending it to the tokens, so the
stored text can exceed the budget by the token prefix.  The failure half of
the claim holds: extraction failures yield empty text and the file is still
indexed with its tokens. -/

/-- C8 (amended): every extraction failure yields empty extracted text, a
file whose extraction fails is still indexed with its filename/path tokens
as its searchable text (the row and its searchable entry are still
queued), and on successful extraction the stored text is the tokens
followed by the extracted body where the body alone is truncated to the
configured character budget. -/
theorem c8_searchable_text (cfg : Config) (f : FInfo) (jid : String) :
    (∀ (avail : Bool) (mp mc : Nat), extract_pdf_text avail none mp mc = "") ∧
    (f.pdfDoc = none → f.officeRaw = none → buildFtsContent cfg f jid = tokensFname f) ∧
    (∀ pages, cfg.fitzAvailable = true → pdfEligible cfg f jid = true →
      f.pdfDoc = some pages →
      extract_office_text cfg f = "" →
      takeStr (normWs (String.intercalate " " (pages.take cfg.maxPdfPages)))
          cfg.maxPdfChars ≠ "" →
      buildFtsContent cfg f jid =
        stripStr (tokensFname f ++ " " ++
          takeStr (normWs (String.intercalate " " (pages.take cfg.maxPdfPages)))
            cfg.maxPdfChars)) ∧
    (∀ (args : Args) (now : String) (st : ScanState) (jy : Option Int) (qver : Option Nat)
        (root : List String),
      st.stopped = false → args.limit = 0 → args.dryRun = false →
      f.pdfDoc = none → f.officeRaw = none →
      stepKind cfg args st.db.files f = StepKind.slow jid jy qver root →
      st.batch.length + 1 < 800 →
      (processFile cfg args now st f).batch = st.batch ++ [mkRow cfg f jid qver root] ∧
      (processFile cfg args now st f).ftsBatch = st.ftsBatch ++ [(tokensFname f, fhOf f)]) := by
  have hfail : ∀ (avail : Bool) (mp mc : Nat), extract_pdf_text avail none mp mc = "" := by
    intro avail mp mc
    unfold extract_pdf_text
    cases avail <;> rfl
  have hempty : f.pdfDoc = none → f.officeRaw = none →
      buildFtsContent cfg f jid = tokensFname f := by
    intro hdoc horaw
    have hoff : extract_office_text cfg f = "" := by
      unfold extract_office_text
      rw [horaw]
      simp
    unfold buildFtsContent
    rw [hdoc, hfail, hoff]
    simp
  refine ⟨hfail, hempty, ?_, ?_⟩
  · intro pages havail helig hdoc hoff hne
    have hext : extract_pdf_text cfg.fitzAvailable f.pdfDoc cfg.maxPdfPages cfg.maxPdfChars
        = takeStr (normWs (String.intercalate " " (pages.take cfg.maxPdfPages)))
            cfg.maxPdfChars := by
      rw [havail, hdoc]
      rfl
    unfold buildFtsContent
    rw [hoff]
    simp [helig, hext, hne]
  · intro args now st jy qver root hstop hlim hdry hdoc horaw hkind hroom
    have hdisp := processFile_slow cfg args now st f jid jy qver root hstop hlim hkind
    rw [hdisp]
    have htoks : buildFtsContent cfg f jid = tokensFname f := hempty hdoc horaw
    have hfr := slowPath_frame cfg args now
      { st with counters := { st.counters with
          totalScanned := st.counters.totalScanned + 1 } }
      f jid jy qver root (fhOf f) hdry hroom
    refine ⟨hfr.1, ?_⟩
    rw [hfr.2.1, htoks]

/-- Configuration with a tiny character budget for the truncation
counterexample. -/
def c8Cfg : Config := { pdfEnabled := true, fitzAvailable := true, maxPdfChars := 4 }

def c8File : FInfo :=
  { segs := ["P:", "JOBS", "101-23", "doc.pdf"], statOk := true, size := 10,
    mtime := "t", pdfDoc := some ["abcdefgh"], officeRaw := none }

set_option maxRecDepth 4000 in
/-- C8 counterexample: the stored searchable text exceeds the configured
character budget (so the final text is not truncated to it) and differs
from tokens-plus-body truncated as a whole: only the body is truncated
before being appended. -/
theorem c8_truncation_counterexample :
    (buildFtsContent c8Cfg c8File "101-23").length > c8Cfg.maxPdfChars ∧
    buildFtsContent c8Cfg c8File "101-23" ≠
      takeStr (tokensFname c8File ++ " " ++
        normWs (String.intercalate " " ((["abcdefgh"] : List String).take c8Cfg.maxPdfPages)))
        c8Cfg.maxPdfChars := by
  refine ⟨by decide, by decide⟩

set_option maxRecDepth 4000 in
/-- C8 witness: the amended theorem applied at the truncation scenario —
the stored text is the tokens plus the body truncated to 4 characters —
and at the failed-extraction scenario, where the tokens remain. -/
theorem c8_searchable_text_witness :
    (extract_pdf_text true none 10 40000 = "") ∧
    (buildFtsContent c8Cfg { c8File with pdfDoc := none } "101-23" =
      tokensFname { c8File with pdfDoc := none }) ∧
    (buildFtsContent c8Cfg c8File "101-23" =
      stripStr (tokensFname c8File ++ " " ++
        takeStr (normWs (String.intercalate " " ((["abcdefgh"] : List String).take
          c8Cfg.maxPdfPages))) c8Cfg.maxPdfChars)) := by
  refine ⟨(c8_searchable_text c8Cfg c8File "101-23").1 true 10 40000, ?_, ?_⟩
  · exact (c8_searchable_text c8Cfg { c8File with pdfDoc := none } "101-23").2.1 rfl rfl
  · exact (c8_searchable_text c8Cfg c8File "101-23").2.2.1 ["abcdefgh"] rfl (by decide)
      rfl (by decide) (by decide)

/-! C4.  Partial-run safety: neither a row-limited run nor a quote-only run
ever sets a deleted flag; the reconciliation pass runs only on a complete,
unrestricted, deletion-enabled scan. -/

theorem mkRow_deleted (cfg : Config) (f : FInfo) (jid : String) (qver : Option Nat)
    (root : List String) : (mkRow cfg f jid qver root).deleted = 0 := rfl

theorem upsertOne_deleted_mem (files : List FileRec) (b : FileRec) (hb : b.deleted = 0) :
    ∀ r ∈ upsertOne files b, r.deleted = 1 → r ∈ files := by
  intro r hr hd
  unfold upsertOne at hr
  by_cases hc : (files.any (fun old => old.file_hash16 = b.file_hash16)) = true
  · rw [if_pos hc] at hr
    obtain ⟨r0, hr0, heq⟩ := List.mem_map.mp hr
    by_cases hkey : r0.file_hash16 = b.file_hash16
    · rw [if_pos hkey] at heq
      rw [← heq] at hd
      simp at hd
    · rw [if_neg hkey] at heq
      rw [← heq]
      exact hr0
  · rw [if_neg hc] at hr
    rcases List.mem_append.mp hr with hmem | hmem
    · exact hmem
    · rw [List.mem_singleton.mp hmem] at hd
      rw [hb] at hd
      cases hd

theorem applyBatch_deleted_mem (batch : List FileRec) :
    ∀ (files : List FileRec), (∀ r ∈ batch, r.deleted = 0) →
    ∀ r ∈ applyBatch files batch, r.deleted = 1 → r ∈ files := by
  induction batch with
  | nil => intro files _ r hr _; exact hr
  | cons b bs ih =>
      intro files hb r hr hd
      have hstep := ih (upsertOne files b)
        (fun x hx => hb x (List.mem_cons_of_mem b hx)) r hr hd
      exact upsertOne_deleted_mem files b (hb b (List.mem_cons_self b bs)) r hstep hd

theorem flushState_files (st : ScanState) :
    (flushState st).db.files = applyBatch st.db.files st.batch := rfl

/-- `slowPath` preserves the "every tombstoned row predates the run"
invariant, and keeps the batch free of tombstoned rows. -/
theorem slowPath_deleted_inv (cfg : Config) (args : Args) (now : String) (st : ScanState)
    (f : FInfo) (jid : String) (jy : Option Int) (qver : Option Nat) (root : List String)
    (fh : String) (F0 : List FileRec)
    (h1 : ∀ r ∈ st.db.files, r.deleted = 1 → r ∈ F0)
    (h2 : ∀ r ∈ st.batch, r.deleted = 0) :
    (∀ r ∈ (slowPath cfg args now st f jid jy qver root fh).db.files,
        r.deleted = 1 → r ∈ F0) ∧
    (∀ r ∈ (slowPath cfg args now st f jid jy qver root fh).batch, r.deleted = 0) := by
  unfold slowPath
  have h2' : ∀ r ∈ st.batch ++ [mkRow cfg f jid qver root], r.deleted = 0 := by
    intro r hr
    rcases List.mem_append.mp hr with hmem | hmem
    · exact h2 r hmem
    · rw [List.mem_singleton.mp hmem]
      exact mkRow_deleted cfg f jid qver root
  by_cases hpj : (st.perJobRoots.any (fun kv => kv.1 = jid)) = true <;>
    by_cases hdry : args.dryRun = true <;>
      simp only [hpj, hdry, Bool.not_true, Bool.not_false, Bool.false_eq_true,
        Bool.true_eq_false, if_false, if_true, and_true, and_false] <;>
      first
        | exact ⟨h1, h2'⟩
        | (split_ifs <;>
            first
              | exact ⟨h1, h2'⟩
              | exact ⟨fun r hr hd => h1 r (applyBatch_deleted_mem _ _ h2' r hr hd) hd,
                  fun r hr => absurd hr (List.not_mem_nil r)⟩)

/-- One scan-loop step preserves the invariant. -/
theorem processFile_deleted_inv (cfg : Config) (args : Args) (now : String)
    (st : ScanState) (f : FInfo) (F0 : List FileRec)
    (h1 : ∀ r ∈ st.db.files, r.deleted = 1 → r ∈ F0)
    (h2 : ∀ r ∈ st.batch, r.deleted = 0) :
    (∀ r ∈ (processFile cfg args now st f).db.files, r.deleted = 1 → r ∈ F0) ∧
    (∀ r ∈ (processFile cfg args now st f).batch, r.deleted = 0) := by
  unfold processFile
  by_cases hstop : st.stopped = true
  · simp only [hstop, if_true]
    exact ⟨h1, h2⟩
  · rw [if_neg hstop]
    by_cases hbrk : args.limit ≠ 0 ∧ args.limit < st.counters.totalScanned + 1
    · rw [if_pos hbrk]
      exact ⟨h1, h2⟩
    · rw [if_neg hbrk]
      cases hk : stepKind cfg args st.db.files f <;> simp only [hk]
      · exact ⟨h1, h2⟩
      · exact ⟨h1, h2⟩
      · exact ⟨h1, h2⟩
      · exact ⟨h1, h2⟩
      · exact ⟨h1, h2⟩
      · rename_i jid
        refine ⟨fun r hr hd => h1 r ?_ hd, fun r hr => h2 r ?_⟩
        · rw [(fastPath_frame cfg args _ f jid (fhOf f)).1] at hr
          exact hr
        · rw [(fastPath_frame cfg args _ f jid (fhOf f)).2.2.1] at hr
          exact hr
      · rename_i jid jy qver root
        exact slowPath_deleted_inv cfg args now
          { st with counters := { st.counters with
              totalScanned := st.counters.totalScanned + 1 } }
          f jid jy qver root (fhOf f) F0 h1 h2

theorem foldl_processFile_deleted_inv (cfg : Config) (args : Args) (now : String)
    (F0 : List FileRec) :
    ∀ (tree : List FInfo) (st : ScanState),
      (∀ r ∈ st.db.files, r.deleted = 1 → r ∈ F0) →
      (∀ r ∈ st.batch, r.deleted = 0) →
      (∀ r ∈ (tree.foldl (processFile cfg args now) st).db.files, r.deleted = 1 → r ∈ F0) ∧
      (∀ r ∈ (tree.foldl (processFile cfg args now) st).batch, r.deleted = 0) := by
  intro tree
  induction tree with
  | nil => intro st h1 h2; exact ⟨h1, h2⟩
  | cons f rest ih =>
      intro st h1 h2
      have hstep := processFile_deleted_inv cfg args now st f F0 h1 h2
      exact ih (processFile cfg args now st f) hstep.1 hstep.2

theorem runScan_deleted_inv (cfg : Config) (args : Args) (now : String)
    (tree : List FInfo) (db0 : Db) :
    ∀ r ∈ (runScan cfg args now tree db0).db.files, r.deleted = 1 → r ∈ db0.files := by
  intro r hr hd
  unfold runScan at hr
  have hfold := foldl_processFile_deleted_inv cfg args now db0.files tree { db := db0 }
    (fun x hx hdx => hx) (fun x hx => absurd hx (by simp))
  set stF := tree.foldl (processFile cfg args now) { db := db0 } with hstF
  by_cases hc : (stF.batch ≠ [] ∧ (!args.dryRun) = true)
  · rw [if_pos hc, flushState_files] at hr
    exact hfold.1 r (applyBatch_deleted_mem stF.batch stF.db.files hfold.2 r hr hd) hd
  · rw [if_neg hc] at hr
    exact hfold.1 r hr hd

/-- Rollups touch only the jobs table. -/
theorem rollup_files_eq (db : Db) (job_id : String) :
    (rollup_job_stats db job_id).files = db.files := rfl

theorem rollupFold_files_eq (ids : List String) :
    ∀ db : Db, ((ids.foldl rollup_job_stats db).files = db.files) := by
  induction ids with
  | nil => intro db; rfl
  | cons i rest ih => intro db; rw [List.foldl_cons, ih, rollup_files_eq]

/-- C4: a row-limited run and a quote-only run mark nothing deleted and
never set the deleted flag on any Files record — every tombstoned row after
such a run was already present (tombstoned) before it. -/
theorem c4_partial_run_safety (cfg : Config) (args : Args) (now : String)
    (tree : List FInfo) (db0 : Db)
    (hpart : args.limit ≠ 0 ∨ args.quotesOnly = true) :
    (runIndexer cfg args now tree db0).deletedMarked = 0 ∧
    (∀ r ∈ (runIndexer cfg args now tree db0).db.files, r.deleted = 1 → r ∈ db0.files) := by
  have hcond : ¬((!args.dryRun) = true ∧ args.limit = 0 ∧
      (!(args.noDelete || args.quotesOnly)) = true ∧ (!args.quotesOnly) = true) := by
    rcases hpart with hlim | hqo
    · intro hcon
      exact hlim hcon.2.1
    · intro hcon
      rw [hqo] at hcon
      simp at hcon
  have hnd : (runIndexer cfg args now tree db0).db.files =
      (runScan cfg args now tree db0).db.files ∧
      (runIndexer cfg args now tree db0).deletedMarked = 0 := by
    unfold runIndexer
    simp only [if_neg hcond]
    by_cases hdry : (!args.dryRun) = true
    · simp only [if_pos hdry]
      refine ⟨?_, trivial⟩
      show (cleanup_old_quote_versions _).files = _
      unfold cleanup_old_quote_versions
      rw [rollupFold_files_eq]
    · simp only [if_neg hdry]
      exact ⟨trivial, trivial⟩
  refine ⟨hnd.2, ?_⟩
  intro r hr hd
  rw [hnd.1] at hr
  exact runScan_deleted_inv cfg args now tree db0 r hr hd

/-- C4 witness: a limit-1 run over a one-file tree, against a store already
holding one tombstoned row. -/
def c4Db : Db := { files := [{ c7Row with file_hash16 := "old", deleted := 1 }] }

theorem c4_partial_run_safety_witness :
    (runIndexer c7Cfg { limit := 1 } "now" [c7File] c4Db).deletedMarked = 0 ∧
    (∀ r ∈ (runIndexer c7Cfg { limit := 1 } "now" [c7File] c4Db).db.files,
        r.deleted = 1 → r ∈ c4Db.files) :=
  c4_partial_run_safety c7Cfg { limit := 1 } "now" [c7File] c4Db (Or.inl (by decide))

/-! C1.  Idempotence of the full pipeline.  The development below follows
the run: the virtual end-state of the files table is the committed table
with the pending batch applied (`effFiles`); every file the gates admit
ends the first run with a row whose size and mtime match it; the observed
set is a pure function of tree and configuration; the reconciliation pass
of the first run leaves no active in-scope row unobserved — so the second
run takes the unchanged fast path everywhere and writes nothing to `files`
or `jobs`. -/

/-- The files table as it will stand once the pending batch is flushed. -/
def effFiles (st : ScanState) : List FileRec := applyBatch st.db.files st.batch

/-- The gate chain of the scan loop up to (and including) classification —
everything that decides whether a file is indexed at all, independent of
the store. -/
def gatePasses (cfg : Config) (args : Args) (f : FInfo) : Bool :=
  if cfg.ignoreExts.contains (lowerStr (suffixOf (lastName f.segs))) then false
  else if cfg.ignoreDirTokens ≠ [] ∧
      cfg.ignoreDirTokens.any (fun t => containsSub (lowerStr (pathStr f.segs.dropLast)) t) then
    false
  else if !f.statOk then false
  else
    match classify cfg args f with
    | ClassOut.ok _ _ _ _ => true
    | _ => false

theorem applyBatch_append (files : List FileRec) (b1 b2 : List FileRec) :
    applyBatch files (b1 ++ b2) = applyBatch (applyBatch files b1) b2 :=
  List.foldl_append upsertOne files b1 b2

theorem find?_append_left_none {α : Type} (p : α → Bool) :
    ∀ (l1 l2 : List α), (∀ x ∈ l1, p x = false) → (l1 ++ l2).find? p = l2.find? p := by
  intro l1 l2
  induction l1 with
  | nil => intro _; rfl
  | cons a rest ih =>
      intro h
      rw [List.cons_append,
        List.find?_cons_of_neg _ (by simp [h a (List.mem_cons_self a rest)])]
      exact ih (fun x hx => h x (List.mem_cons_of_mem a hx))

/-- Looking a key up in a table mapped through a key-preserving row update
finds the updated image of the original row. -/
theorem lookupFile_map_eq (g : FileRec → FileRec)
    (hg : ∀ r, (g r).file_hash16 = r.file_hash16) :
    ∀ (files : List FileRec) (k : String),
      lookupFile (files.map g) k = (lookupFile files k).map g := by
  intro files k
  induction files with
  | nil => rfl
  | cons a rest ih =>
      rw [List.map_cons]
      unfold lookupFile
      by_cases hk : a.file_hash16 = k
      · rw [List.find?_cons_of_pos _ (by simp [hg a, hk]),
          List.find?_cons_of_pos _ (by simp [hk])]
        rfl
      · rw [List.find?_cons_of_neg _ (by simp [hg a, hk]),
          List.find?_cons_of_neg _ (by simp [hk])]
        exact ih

theorem lookupFile_key (files : List FileRec) (k : String) (r : FileRec)
    (h : lookupFile files k = some r) : r.file_hash16 = k := by
  have := List.find?_some h
  simpa using this

theorem lookupFile_some_of_any (files : List FileRec) (k : String)
    (hc : (files.any (fun old => old.file_hash16 = k)) = true) :
    ∃ r, lookupFile files k = some r := by
  obtain ⟨x, hx, hxk⟩ := List.any_eq_true.mp hc
  rw [decide_eq_true_eq] at hxk
  have : (files.find? (fun old => old.file_hash16 = k)).isSome := by
    rw [List.find?_isSome]
    exact ⟨x, hx, by simp [hxk]⟩
  exact Option.isSome_iff_exists.mp this

theorem upsertOne_key_fields (files : List FileRec) (b : FileRec) :
    ∃ r, lookupFile (upsertOne files b) b.file_hash16 = some r ∧
      r.file_hash16 = b.file_hash16 ∧ r.size_bytes = b.size_bytes ∧
      r.mtime_utc = b.mtime_utc := by
  unfold upsertOne
  by_cases hc : (files.any (fun old => old.file_hash16 = b.file_hash16)) = true
  · rw [if_pos hc]
    obtain ⟨r0, hr0⟩ := lookupFile_some_of_any files b.file_hash16 hc
    have hmap := lookupFile_map_eq
      (fun old => if old.file_hash16 = b.file_hash16 then
        { old with size_bytes := b.size_bytes, mtime_utc := b.mtime_utc, kind := b.kind,
                   tokens_fname := b.tokens_fname, detector_hits := b.detector_hits,
                   deleted := 0,
                   q_version := match b.q_version with
                                | some v => some v
                                | none => old.q_version }
      else old)
      (fun r => by by_cases hrk : r.file_hash16 = b.file_hash16 <;> simp [hrk])
      files b.file_hash16
    rw [hmap, hr0]
    have hr0k := lookupFile_key files b.file_hash16 r0 hr0
    refine ⟨_, rfl, ?_, ?_, ?_⟩ <;> simp [hr0k]
  · rw [if_neg hc]
    refine ⟨b, ?_, rfl, rfl, rfl⟩
    unfold lookupFile
    rw [find?_append_left_none _ files [b] ?_]
    · simp
    · intro x hx
      simp only [decide_eq_false_iff_not]
      intro hk
      exact hc (List.any_eq_true.mpr ⟨x, hx, by simp [hk]⟩)

theorem lookupFile_upsertOne_other (files : List FileRec) (b : FileRec) (k : String)
    (hne : k ≠ b.file_hash16) :
    lookupFile (upsertOne files b) k = lookupFile files k := by
  unfold upsertOne
  by_cases hc : (files.any (fun old => old.file_hash16 = b.file_hash16)) = true
  · rw [if_pos hc]
    rw [lookupFile_map_eq _
      (fun r => by by_cases hrk : r.file_hash16 = b.file_hash16 <;> simp [hrk]) files k]
    cases hlk : lookupFile files k with
    | none => rfl
    | some r =>
        have hrk := lookupFile_key files k r hlk
        have : ¬(r.file_hash16 = b.file_hash16) := by
          rw [hrk]
          exact hne
        simp [this]
  · rw [if_neg hc]
    unfold lookupFile
    rw [List.find?_append]
    have : ([b].find? (fun r => r.file_hash16 = k)) = none := by
      rw [List.find?_eq_none]
      intro x hx
      rw [List.mem_singleton.mp hx]
      simp
      exact fun h => hne h.symm
    cases hlk : List.find? (fun r => r.file_hash16 = k) files with
    | none => simp [this]
    | some r => simp

theorem lookupFile_applyBatch_other (batch : List FileRec) :
    ∀ (files : List FileRec) (k : String), (∀ r ∈ batch, r.file_hash16 ≠ k) →
      lookupFile (applyBatch files batch) k = lookupFile files k := by
  induction batch with
  | nil => intro files k _; rfl
  | cons b rest ih =>
      intro files k hk
      have h1 : lookupFile (applyBatch (upsertOne files b) rest) k =
          lookupFile (upsertOne files b) k :=
        ih (upsertOne files b) k (fun r hr => hk r (List.mem_cons_of_mem b hr))
      have h2 : lookupFile (upsertOne files b) k = lookupFile files k :=
        lookupFile_upsertOne_other files b k
          (fun h => hk b (List.mem_cons_self b rest) h.symm)
      exact h1.trans h2

theorem fastPath_eff (cfg : Config) (args : Args) (st : ScanState) (f : FInfo)
    (jid fh : String) :
    effFiles (fastPath cfg args st f jid fh) = effFiles st := by
  have h := fastPath_frame cfg args st f jid fh
  unfold effFiles
  rw [h.1, h.2.2.1]

theorem slowPath_eff (cfg : Config) (args : Args) (now : String) (st : ScanState)
    (f : FInfo) (jid : String) (jy : Option Int) (qver : Option Nat) (root : List String)
    (fh : String) :
    effFiles (slowPath cfg args now st f jid jy qver root fh) =
      upsertOne (effFiles st) (mkRow cfg f jid qver root) ∧
    (slowPath cfg args now st f jid jy qver root fh).seen = st.seen ++ [fh] ∧
    (slowPath cfg args now st f jid jy qver root fh).stopped = st.stopped ∧
    (∀ rr ∈ (slowPath cfg args now st f jid jy qver root fh).batch,
        rr ∈ st.batch ++ [mkRow cfg f jid qver root]) := by
  have happ : ∀ (files batch : List FileRec) (r : FileRec),
      applyBatch files (batch ++ [r]) = upsertOne (applyBatch files batch) r := by
    intro files batch r
    rw [applyBatch_append]
    rfl
  unfold slowPath flushState effFiles
  by_cases hpj : (st.perJobRoots.any (fun kv => kv.1 = jid)) = true <;>
    by_cases hdry : args.dryRun = true <;>
      simp only [hpj, hdry, Bool.not_true, Bool.not_false, Bool.false_eq_true,
        Bool.true_eq_false, if_false, if_true, and_true, and_false] <;>
      first
        | exact happ _ _ _
        | exact ⟨happ _ _ _, rfl, rfl, fun rr hrr => hrr⟩
        | exact ⟨happ _ _ _, trivial, trivial, fun rr hrr => hrr⟩
        | (split_ifs <;>
            first
              | exact happ _ _ _
              | exact ⟨happ _ _ _, rfl, rfl, fun rr hrr => hrr⟩
              | exact ⟨happ _ _ _, trivial, trivial, fun rr hrr => hrr⟩
              | exact ⟨happ _ _ _, rfl, rfl, fun rr hrr => absurd hrr (List.not_mem_nil rr)⟩
              | exact ⟨happ _ _ _, trivial, trivial, fun rr hrr => absurd hrr (List.not_mem_nil rr)⟩)

/-- A file the gates reject only bumps a counter: every other component of
the state is untouched. -/
theorem processFile_counters_only (cfg : Config) (args : Args) (now : String)
    (st : ScanState) (f : FInfo)
    (hstop : st.stopped = false) (hlim : args.limit = 0)
    (hgate : gatePasses cfg args f = false) :
    ∃ c, processFile cfg args now st f = { st with counters := c } := by
  have hns : ¬(st.stopped = true) := by simp [hstop]
  have hnb : ¬(args.limit ≠ 0 ∧ args.limit < st.counters.totalScanned + 1) := by
    simp [hlim]
  unfold processFile
  rw [if_neg hns, if_neg hnb]
  unfold stepKind
  unfold gatePasses at hgate
  by_cases h1 : cfg.ignoreExts.contains (lowerStr (suffixOf (lastName f.segs))) = true
  · simp only [h1, if_true]
    exact ⟨_, rfl⟩
  · rw [if_neg h1] at hgate
    simp only [h1, Bool.false_eq_true, if_false]
    by_cases h2 : cfg.ignoreDirTokens ≠ [] ∧
        cfg.ignoreDirTokens.any (fun t => containsSub (lowerStr (pathStr f.segs.dropLast)) t)
    · rw [if_pos h2] at hgate ⊢
      exact ⟨_, rfl⟩
    · rw [if_neg h2] at hgate ⊢
      by_cases h3 : (!f.statOk) = true
      · simp only [h3, if_true]
        exact ⟨_, rfl⟩
      · simp only [h3, Bool.false_eq_true, if_false] at hgate ⊢
        cases hcl : classify cfg args f
        · simp only [hcl]
          exact ⟨_, rfl⟩
        · simp only [hcl]
          exact ⟨_, rfl⟩
        · rw [hcl] at hgate
          simp at hgate

/-- A file the gates admit is classified, and the step disposition is
exactly the unchanged-fast-path test against the given table. -/
theorem stepKind_of_gate (cfg : Config) (args : Args) (f : FInfo)
    (hgate : gatePasses cfg args f = true) :
    ∃ jid jy qver root, classify cfg args f = ClassOut.ok jid jy qver root ∧
      ∀ files, stepKind cfg args files f =
        (match lookupFile files (fhOf f) with
         | some old =>
             if old.size_bytes = f.size ∧ old.mtime_utc = f.mtime
             then StepKind.fast jid else StepKind.slow jid jy qver root
         | none => StepKind.slow jid jy qver root) := by
  unfold gatePasses at hgate
  by_cases h1 : cfg.ignoreExts.contains (lowerStr (suffixOf (lastName f.segs))) = true
  · rw [if_pos h1] at hgate
    cases hgate
  · rw [if_neg h1] at hgate
    by_cases h2 : cfg.ignoreDirTokens ≠ [] ∧
        cfg.ignoreDirTokens.any (fun t => containsSub (lowerStr (pathStr f.segs.dropLast)) t)
    · rw [if_pos h2] at hgate
      cases hgate
    · rw [if_neg h2] at hgate
      by_cases h3 : (!f.statOk) = true
      · rw [if_pos h3] at hgate
        cases hgate
      · rw [if_neg h3] at hgate
        cases hcl : classify cfg args f with
        | noJob => rw [hcl] at hgate; cases hgate
        | outOfYear => rw [hcl] at hgate; cases hgate
        | ok jid jy qver root =>
            refine ⟨jid, jy, qver, root, rfl, ?_⟩
            intro files
            unfold stepKind
            rw [if_neg h1, if_neg h2, if_neg h3, hcl]

/-! C1.  Idempotence machinery: the per-file step, the scan-fold invariant,
and the two-run comparison. -/

/-- The effective table holds a row under the file's key whose recorded
size and mtime agree with the file's observed stat. -/
def goodRow (f : FInfo) (files : List FileRec) : Prop :=
  ∃ r, lookupFile files (fhOf f) = some r ∧
    r.size_bytes = f.size ∧ r.mtime_utc = f.mtime

theorem processFile_step (cfg : Config) (args : Args) (now : String)
    (st : ScanState) (f : FInfo)
    (hstop : st.stopped = false) (hlim : args.limit = 0)
    (hgate : gatePasses cfg args f = true)
    (hbk : ∀ r ∈ st.batch, r.file_hash16 ∈ st.seen)
    (hns : fhOf f ∉ st.seen) :
    (processFile cfg args now st f).stopped = false ∧
    (processFile cfg args now st f).seen = st.seen ++ [fhOf f] ∧
    (∀ r ∈ (processFile cfg args now st f).batch,
        r.file_hash16 ∈ (processFile cfg args now st f).seen) ∧
    goodRow f (effFiles (processFile cfg args now st f)) ∧
    (∀ k, fhOf f ≠ k →
      lookupFile (effFiles (processFile cfg args now st f)) k =
        lookupFile (effFiles st) k) := by
  obtain ⟨jid, jy, qver, root, hcl, hsk⟩ := stepKind_of_gate cfg args f hgate
  have hnob : ∀ r ∈ st.batch, ¬(r.file_hash16 = fhOf f) := by
    intro r hr heq
    exact hns (heq ▸ hbk r hr)
  have heffst : lookupFile (effFiles st) (fhOf f) = lookupFile st.db.files (fhOf f) :=
    lookupFile_applyBatch_other st.batch st.db.files (fhOf f) hnob
  have hslow : stepKind cfg args st.db.files f = StepKind.slow jid jy qver root →
      (processFile cfg args now st f).stopped = false ∧
      (processFile cfg args now st f).seen = st.seen ++ [fhOf f] ∧
      (∀ r ∈ (processFile cfg args now st f).batch,
          r.file_hash16 ∈ (processFile cfg args now st f).seen) ∧
      goodRow f (effFiles (processFile cfg args now st f)) ∧
      (∀ k, fhOf f ≠ k →
        lookupFile (effFiles (processFile cfg args now st f)) k =
          lookupFile (effFiles st) k) := by
    intro hkind
    have hr := processFile_slow cfg args now st f jid jy qver root hstop hlim hkind
    rw [hr]
    have hse := slowPath_eff cfg args now
      { st with counters := { st.counters with
          totalScanned := st.counters.totalScanned + 1 } }
      f jid jy qver root (fhOf f)
    have hseen : (slowPath cfg args now
        { st with counters := { st.counters with
            totalScanned := st.counters.totalScanned + 1 } }
        f jid jy qver root (fhOf f)).seen = st.seen ++ [fhOf f] := hse.2.1
    have heff : effFiles (slowPath cfg args now
        { st with counters := { st.counters with
            totalScanned := st.counters.totalScanned + 1 } }
        f jid jy qver root (fhOf f)) =
        upsertOne (effFiles st) (mkRow cfg f jid qver root) := hse.1
    refine ⟨?_, hseen, ?_, ?_, ?_⟩
    · rw [hse.2.2.1]
      exact hstop
    · intro r hrb
      have hmem := hse.2.2.2 r hrb
      rw [hseen]
      rcases List.mem_append.mp hmem with hl | hr2
      · exact List.mem_append_left _ (hbk r hl)
      · rw [List.mem_singleton.mp hr2]
        exact List.mem_append_right _ (List.mem_singleton.mpr rfl)
    · rw [heff]
      obtain ⟨r, hlkr, _, hsz, hmt⟩ :=
        upsertOne_key_fields (effFiles st) (mkRow cfg f jid qver root)
      exact ⟨r, hlkr, hsz, hmt⟩
    · intro k hk
      rw [heff]
      exact lookupFile_upsertOne_other (effFiles st) (mkRow cfg f jid qver root) k
        (Ne.symm hk)
  cases hlk : lookupFile st.db.files (fhOf f) with
  | some old =>
      by_cases hm : old.size_bytes = f.size ∧ old.mtime_utc = f.mtime
      · have hkind : stepKind cfg args st.db.files f = StepKind.fast jid := by
          rw [hsk st.db.files, hlk]
          exact if_pos hm
        have hr := processFile_fast cfg args now st f jid hstop hlim hkind
        rw [hr]
        have hfr := fastPath_frame cfg args
          { st with counters := { st.counters with
              totalScanned := st.counters.totalScanned + 1 } }
          f jid (fhOf f)
        have heq : effFiles (fastPath cfg args
            { st with counters := { st.counters with
                totalScanned := st.counters.totalScanned + 1 } }
            f jid (fhOf f)) = effFiles st := by
          unfold effFiles
          rw [hfr.1, hfr.2.2.1]
        refine ⟨?_, ?_, ?_, ?_, ?_⟩
        · rw [hfr.2.2.2.2.1]
          exact hstop
        · rw [hfr.2.2.2.2.2]
        · intro r hrb
          rw [hfr.2.2.1] at hrb
          rw [hfr.2.2.2.2.2]
          exact List.mem_append_left _ (hbk r hrb)
        · rw [heq]
          exact ⟨old, heffst.trans hlk, hm.1, hm.2⟩
        · intro k _
          rw [heq]
      · exact hslow (by rw [hsk st.db.files, hlk]; exact if_neg hm)
  | none => exact hslow (by rw [hsk st.db.files, hlk])

theorem fold_scan_inv (cfg : Config) (args : Args) (now : String)
    (hlim : args.limit = 0) :
    ∀ (rest : List FInfo) (st : ScanState),
      st.stopped = false →
      (∀ r ∈ st.batch, r.file_hash16 ∈ st.seen) →
      (∀ f ∈ rest, gatePasses cfg args f = true → fhOf f ∉ st.seen) →
      ((rest.map fhOf).Nodup) →
      (rest.foldl (processFile cfg args now) st).stopped = false ∧
      (rest.foldl (processFile cfg args now) st).seen =
        st.seen ++ (rest.filter (fun f => gatePasses cfg args f)).map fhOf ∧
      (∀ r ∈ (rest.foldl (processFile cfg args now) st).batch,
          r.file_hash16 ∈ (rest.foldl (processFile cfg args now) st).seen) ∧
      (∀ f ∈ rest, gatePasses cfg args f = true →
          goodRow f (effFiles (rest.foldl (processFile cfg args now) st))) ∧
      (∀ k, (∀ f ∈ rest, gatePasses cfg args f = true → fhOf f ≠ k) →
        lookupFile (effFiles (rest.foldl (processFile cfg args now) st)) k =
          lookupFile (effFiles st) k) := by
  intro rest
  induction rest with
  | nil =>
      intro st hstop hbk _ _
      exact ⟨hstop, by simp, hbk, by simp, fun k _ => rfl⟩
  | cons g rest ih =>
      intro st hstop hbk hdisj hnod
      rw [List.map_cons] at hnod
      obtain ⟨hgnotin, hnod2⟩ := List.nodup_cons.mp hnod
      cases hg : gatePasses cfg args g with
      | false =>
          obtain ⟨c, heq⟩ := processFile_counters_only cfg args now st g hstop hlim hg
          rw [List.foldl_cons, heq]
          have hI := ih { st with counters := c } hstop hbk
            (fun f hf hgf => hdisj f (List.mem_cons_of_mem g hf) hgf) hnod2
          refine ⟨hI.1, ?_, hI.2.2.1, ?_, ?_⟩
          · rw [hI.2.1, List.filter_cons_of_neg (by simp [hg])]
          · intro f hf hgf
            rcases List.mem_cons.mp hf with rfl | hf2
            · exact absurd hgf (by simp [hg])
            · exact hI.2.2.2.1 f hf2 hgf
          · intro k hk
            exact hI.2.2.2.2 k (fun f hf hgf => hk f (List.mem_cons_of_mem g hf) hgf)
      | true =>
          obtain ⟨h1stop, h1seen, h1bk, h1good, h1pres⟩ :=
            processFile_step cfg args now st g hstop hlim hg hbk
              (hdisj g (List.mem_cons_self g rest) hg)
          have hne : ∀ f ∈ rest, gatePasses cfg args f = true → fhOf f ≠ fhOf g := by
            intro f hf _ heq2
            exact hgnotin (heq2 ▸ List.mem_map_of_mem fhOf hf)
          have hI := ih (processFile cfg args now st g) h1stop h1bk
            (by
              intro f hf hgf
              rw [h1seen]
              intro hmem
              rcases List.mem_append.mp hmem with h | h
              · exact hdisj f (List.mem_cons_of_mem g hf) hgf h
              · exact hne f hf hgf (List.mem_singleton.mp h))
            hnod2
          rw [List.foldl_cons]
          refine ⟨hI.1, ?_, hI.2.2.1, ?_, ?_⟩
          · rw [hI.2.1, h1seen, List.filter_cons_of_pos hg]
            simp [List.append_assoc]
          · intro f hf hgf
            rcases List.mem_cons.mp hf with rfl | hf2
            · obtain ⟨r, hr, hs, hm⟩ := h1good
              have hEq := hI.2.2.2.2 (fhOf f) (hne · · ·)
              exact ⟨r, hEq.trans hr, hs, hm⟩
            · exact hI.2.2.2.1 f hf2 hgf
          · intro k hk
            have hEq := hI.2.2.2.2 k
              (fun f hf hgf => hk f (List.mem_cons_of_mem g hf) hgf)
            exact hEq.trans (h1pres k (hk g (List.mem_cons_self g rest) hg))

/-- `jobYearInRange` only reads `job_id` and `job_year`, so a row map
preserving those two columns preserves it. -/
theorem jobYearInRange_map (g : JobRec → JobRec)
    (hg : ∀ j, (g j).job_id = j.job_id ∧ (g j).job_year = j.job_year) :
    ∀ (jobs : List JobRec) (job_id : String) (ymin ymax : Int),
      jobYearInRange (jobs.map g) job_id ymin ymax =
        jobYearInRange jobs job_id ymin ymax := by
  intro jobs job_id ymin ymax
  unfold jobYearInRange
  rw [List.any_map]
  congr 1
  funext j
  show (decide ((g j).job_id = job_id) &&
      (match (g j).job_year with
       | some y => decide (ymin ≤ y) && decide (y ≤ ymax)
       | none => false)) = _
  rw [(hg j).1, (hg j).2]

theorem jobYearInRange_rollup (db : Db) (jid0 job_id : String) (ymin ymax : Int) :
    jobYearInRange (rollup_job_stats db jid0).jobs job_id ymin ymax =
      jobYearInRange db.jobs job_id ymin ymax := by
  exact jobYearInRange_map _
    (fun j => by by_cases hj : j.job_id = jid0 <;> simp [hj]) db.jobs job_id ymin ymax

theorem jobYearInRange_rollupFold (ids : List String) :
    ∀ (db : Db) (job_id : String) (ymin ymax : Int),
      jobYearInRange ((ids.foldl rollup_job_stats db).jobs) job_id ymin ymax =
        jobYearInRange db.jobs job_id ymin ymax := by
  induction ids with
  | nil => intro db _ _ _; rfl
  | cons i rest ih =>
      intro db job_id ymin ymax
      rw [List.foldl_cons, ih, jobYearInRange_rollup]

theorem mark_jobs_eq (db : Db) (seen : List String) (ymin ymax : Int) :
    (mark_deleted_missing db seen ymin ymax).1.jobs = db.jobs := rfl

/-- After the reconciliation pass every remaining active in-scope row was
observed: an unobserved one would have been tombstoned. -/
theorem mark_active_seen (db : Db) (seen : List String) (ymin ymax : Int) :
    ∀ r ∈ (mark_deleted_missing db seen ymin ymax).1.files,
      r.deleted = 0 → jobYearInRange db.jobs r.job_id ymin ymax = true →
        r.file_hash16 ∈ seen := by
  intro r hr hdel hyr
  have hr2 : r ∈ db.files.map (fun fl =>
      if fl.file_hash16 ∈ ((db.files.filter (fun fl =>
        fl.deleted = 0 && jobYearInRange db.jobs fl.job_id ymin ymax &&
        !(seen.contains fl.file_hash16))).map (fun fl => fl.file_hash16))
      then { fl with deleted := 1 } else fl) := hr
  obtain ⟨r0, hr0, hmap⟩ := List.mem_map.mp hr2
  by_cases hc : r0.file_hash16 ∈ ((db.files.filter (fun fl =>
      fl.deleted = 0 && jobYearInRange db.jobs fl.job_id ymin ymax &&
      !(seen.contains fl.file_hash16))).map (fun fl => fl.file_hash16))
  · rw [if_pos hc] at hmap
    rw [← hmap] at hdel
    simp at hdel
  · rw [if_neg hc] at hmap
    subst hmap
    by_contra hns
    apply hc
    refine List.mem_map.mpr ⟨r0, ?_, rfl⟩
    refine List.mem_filter.mpr ⟨hr0, ?_⟩
    simp [hdel, hyr, hns]

/-- A reconciliation pass in which every active in-scope row was observed
marks nothing and returns the store unchanged. -/
theorem mark_noop (db : Db) (seen : List String) (ymin ymax : Int)
    (h : ∀ r ∈ db.files, r.deleted = 0 →
        jobYearInRange db.jobs r.job_id ymin ymax = true → r.file_hash16 ∈ seen) :
    (mark_deleted_missing db seen ymin ymax).1 = db := by
  have hnil : (db.files.filter (fun fl =>
      fl.deleted = 0 && jobYearInRange db.jobs fl.job_id ymin ymax &&
      !(seen.contains fl.file_hash16))) = [] := by
    rw [List.filter_eq_nil]
    intro r hr
    by_cases hd : r.deleted = 0
    · by_cases hy : jobYearInRange db.jobs r.job_id ymin ymax = true
      · have hs := h r hr hd hy
        simp [hd, hy, hs]
      · rw [Bool.not_eq_true] at hy
        simp [hy]
    · simp [hd]
  have hfiles : (mark_deleted_missing db seen ymin ymax).1.files = db.files := by
    have heq : (mark_deleted_missing db seen ymin ymax).1.files = db.files.map (fun fl =>
        if fl.file_hash16 ∈ ((db.files.filter (fun fl =>
          fl.deleted = 0 && jobYearInRange db.jobs fl.job_id ymin ymax &&
          !(seen.contains fl.file_hash16))).map (fun fl => fl.file_hash16))
        then { fl with deleted := 1 } else fl) := rfl
    rw [heq, hnil]
    simp
  calc (mark_deleted_missing db seen ymin ymax).1
      = { db with files := (mark_deleted_missing db seen ymin ymax).1.files } := rfl
    _ = { db with files := db.files } := by rw [hfiles]
    _ = db := rfl

/-- The state `runScan` returns, in terms of the plain fold: the tail
flush only moves the pending batch into the committed table. -/
theorem runScan_char (cfg : Config) (args : Args) (now : String) (tree : List FInfo)
    (db0 : Db) (hdry : args.dryRun = false) :
    (runScan cfg args now tree db0).db.files =
      effFiles (tree.foldl (processFile cfg args now) { db := db0 }) ∧
    (runScan cfg args now tree db0).db.jobs =
      (tree.foldl (processFile cfg args now) { db := db0 }).db.jobs ∧
    (runScan cfg args now tree db0).seen =
      (tree.foldl (processFile cfg args now) { db := db0 }).seen ∧
    (runScan cfg args now tree db0).perJobRoots =
      (tree.foldl (processFile cfg args now) { db := db0 }).perJobRoots ∧
    (runScan cfg args now tree db0).counters =
      (tree.foldl (processFile cfg args now) { db := db0 }).counters := by
  have hrs : runScan cfg args now tree db0 =
      (if (tree.foldl (processFile cfg args now) { db := db0 }).batch ≠ [] ∧
          (!args.dryRun) = true
       then flushState (tree.foldl (processFile cfg args now) { db := db0 })
       else tree.foldl (processFile cfg args now) { db := db0 }) := rfl
  rw [hrs]
  by_cases hb : (tree.foldl (processFile cfg args now) { db := db0 }).batch ≠ []
  · rw [if_pos (And.intro hb (by simp [hdry]))]
    exact ⟨rfl, rfl, rfl, rfl, rfl⟩
  · rw [if_neg (fun hcon => hb hcon.1)]
    refine ⟨?_, rfl, rfl, rfl, rfl⟩
    rw [not_not] at hb
    unfold effFiles
    rw [hb]
    rfl

/-- The second-run scan fold: with a table already holding a matching row
for every admissible file, every step is the unchanged fast path (or a
counter bump), and `files`, `jobs`, the batch and the per-job root set are
never touched. -/
theorem fold_scan_run2 (cfg : Config) (args : Args) (now : String)
    (hlim : args.limit = 0) (files1 : List FileRec) :
    ∀ (rest : List FInfo) (st : ScanState),
      st.stopped = false →
      st.db.files = files1 →
      st.batch = [] →
      (∀ f ∈ rest, gatePasses cfg args f = true → goodRow f files1) →
      (rest.foldl (processFile cfg args now) st).db.files = files1 ∧
      (rest.foldl (processFile cfg args now) st).db.jobs = st.db.jobs ∧
      (rest.foldl (processFile cfg args now) st).batch = [] ∧
      (rest.foldl (processFile cfg args now) st).perJobRoots = st.perJobRoots ∧
      (rest.foldl (processFile cfg args now) st).stopped = false ∧
      (rest.foldl (processFile cfg args now) st).seen =
        st.seen ++ (rest.filter (fun f => gatePasses cfg args f)).map fhOf := by
  intro rest
  induction rest with
  | nil =>
      intro st hstop hfiles hbatch _
      exact ⟨hfiles, rfl, hbatch, rfl, hstop, by simp⟩
  | cons g rest ih =>
      intro st hstop hfiles hbatch hgood
      cases hg : gatePasses cfg args g with
      | false =>
          obtain ⟨c, heq⟩ := processFile_counters_only cfg args now st g hstop hlim hg
          rw [List.foldl_cons, heq]
          have hI := ih { st with counters := c } hstop hfiles hbatch
            (fun f hf hgf => hgood f (List.mem_cons_of_mem g hf) hgf)
          refine ⟨hI.1, hI.2.1, hI.2.2.1, hI.2.2.2.1, hI.2.2.2.2.1, ?_⟩
          rw [hI.2.2.2.2.2, List.filter_cons_of_neg (by simp [hg])]
      | true =>
          obtain ⟨jid, jy, qver, root, hcl, hsk⟩ := stepKind_of_gate cfg args g hg
          obtain ⟨r, hlkr, hs, hm⟩ := hgood g (List.mem_cons_self g rest) hg
          have hkind : stepKind cfg args st.db.files g = StepKind.fast jid := by
            rw [hsk st.db.files, hfiles, hlkr]
            exact if_pos ⟨hs, hm⟩
          have hr := processFile_fast cfg args now st g jid hstop hlim hkind
          rw [List.foldl_cons, hr]
          have hfr := fastPath_frame cfg args
            { st with counters := { st.counters with
                totalScanned := st.counters.totalScanned + 1 } }
            g jid (fhOf g)
          have hI := ih (fastPath cfg args
              { st with counters := { st.counters with
                  totalScanned := st.counters.totalScanned + 1 } }
              g jid (fhOf g))
            (by rw [hfr.2.2.2.2.1]; exact hstop)
            (by rw [hfr.1]; exact hfiles)
            (by rw [hfr.2.2.1]; exact hbatch)
            (fun f hf hgf => hgood f (List.mem_cons_of_mem g hf) hgf)
          refine ⟨hI.1, ?_, hI.2.2.1, ?_, hI.2.2.2.2.1, ?_⟩
          · rw [hI.2.1, hfr.2.1]
          · rw [hI.2.2.2.1, hfr.2.2.2.1]
          · rw [hI.2.2.2.2.2, hfr.2.2.2.2.2, List.filter_cons_of_pos hg]
            simp [List.append_assoc]

theorem cleanup_files_eq (db : Db) :
    (cleanup_old_quote_versions db).files = db.files := rfl

theorem cleanup_jobs_eq (db : Db) :
    (cleanup_old_quote_versions db).jobs = db.jobs := rfl

/-- A row map preserving key, size and mtime preserves `goodRow`. -/
theorem goodRow_map (f : FInfo) (L : List FileRec) (g : FileRec → FileRec)
    (hg : ∀ r, (g r).file_hash16 = r.file_hash16 ∧ (g r).size_bytes = r.size_bytes ∧
      (g r).mtime_utc = r.mtime_utc)
    (h : goodRow f L) : goodRow f (L.map g) := by
  obtain ⟨r, hr, hs, hm⟩ := h
  refine ⟨g r, ?_, ?_, ?_⟩
  · rw [lookupFile_map_eq g (fun r => (hg r).1) L (fhOf f), hr]
    rfl
  · rw [(hg r).2.1, hs]
  · rw [(hg r).2.2, hm]

/-- Reconciliation only flips `deleted` flags, so it preserves `goodRow`. -/
theorem mark_goodRow (db : Db) (seen : List String) (ymin ymax : Int) (f : FInfo)
    (h : goodRow f db.files) :
    goodRow f (mark_deleted_missing db seen ymin ymax).1.files := by
  have heq : (mark_deleted_missing db seen ymin ymax).1.files = db.files.map (fun fl =>
      if fl.file_hash16 ∈ ((db.files.filter (fun fl2 =>
        fl2.deleted = 0 && jobYearInRange db.jobs fl2.job_id ymin ymax &&
        !(seen.contains fl2.file_hash16))).map (fun fl2 => fl2.file_hash16))
      then { fl with deleted := 1 } else fl) := rfl
  rw [heq]
  refine goodRow_map f db.files _ ?_ h
  intro r
  refine ⟨?_, ?_, ?_⟩ <;> (split <;> rfl)

/-- C1: running the full pipeline twice over an unmodified tree (with no
row limit, deletion enabled, not dry and not quote-scoped, over a tree with
distinct identity keys) leaves the store where the first run put it: the
second run's `files` table and `jobs` table equal the first run's, so in
particular every active Files row and every Job's aggregate fields are
identical after run 2 and run 1. -/
theorem c1_idempotent (cfg : Config) (args : Args) (now1 now2 : String)
    (tree : List FInfo) (db0 : Db)
    (hlim : args.limit = 0) (hdry : args.dryRun = false)
    (hnodel : args.noDelete = false) (hqo : args.quotesOnly = false)
    (htree : (tree.map fhOf).Nodup) :
    (runIndexer cfg args now2 tree (runIndexer cfg args now1 tree db0).db).db.files =
      (runIndexer cfg args now1 tree db0).db.files ∧
    (runIndexer cfg args now2 tree (runIndexer cfg args now1 tree db0).db).db.jobs =
      (runIndexer cfg args now1 tree db0).db.jobs := by
  have hcond : (!args.dryRun) = true ∧ args.limit = 0 ∧
      (!(args.noDelete || args.quotesOnly)) = true ∧ (!args.quotesOnly) = true :=
    ⟨by simp [hdry], hlim, by simp [hnodel, hqo], by simp [hqo]⟩
  have hshape : ∀ (now : String) (dbx : Db),
      (runIndexer cfg args now tree dbx).db =
        cleanup_old_quote_versions
          (((runScan cfg args now tree dbx).perJobRoots.map (fun kv => kv.1)).foldl
              rollup_job_stats
              (mark_deleted_missing (runScan cfg args now tree dbx).db
                (runScan cfg args now tree dbx).seen args.yearMin args.yearMax).1) := by
    intro now dbx
    unfold runIndexer
    simp only [if_pos hcond, if_pos (show (!args.dryRun) = true by simp [hdry])]
  have hA := fold_scan_inv cfg args now1 hlim tree { db := db0 } rfl
    (fun r hr => absurd hr (List.not_mem_nil r))
    (fun f _ _ h => absurd h (List.not_mem_nil _))
    htree
  have hrs1 := runScan_char cfg args now1 tree db0 hdry
  have hfiles1 : (runIndexer cfg args now1 tree db0).db.files =
      (mark_deleted_missing (runScan cfg args now1 tree db0).db
        (runScan cfg args now1 tree db0).seen args.yearMin args.yearMax).1.files := by
    rw [hshape now1 db0, cleanup_files_eq, rollupFold_files_eq]
  have hyr1 : ∀ (jid : String),
      jobYearInRange (runIndexer cfg args now1 tree db0).db.jobs jid
          args.yearMin args.yearMax =
        jobYearInRange (runScan cfg args now1 tree db0).db.jobs jid
          args.yearMin args.yearMax := by
    intro jid
    rw [hshape now1 db0, cleanup_jobs_eq, jobYearInRange_rollupFold, mark_jobs_eq]
  have hseenset : (runScan cfg args now1 tree db0).seen =
      (tree.filter (fun f => gatePasses cfg args f)).map fhOf := by
    rw [hrs1.2.2.1, hA.2.1]
    simp
  have hgood1 : ∀ f ∈ tree, gatePasses cfg args f = true →
      goodRow f (runIndexer cfg args now1 tree db0).db.files := by
    intro f hf hg
    rw [hfiles1]
    apply mark_goodRow
    rw [hrs1.1]
    exact hA.2.2.2.1 f hf hg
  have hC : ∀ r ∈ (runIndexer cfg args now1 tree db0).db.files, r.deleted = 0 →
      jobYearInRange (runIndexer cfg args now1 tree db0).db.jobs r.job_id
        args.yearMin args.yearMax = true →
      r.file_hash16 ∈ (runScan cfg args now1 tree db0).seen := by
    intro r hr hd hy
    rw [hyr1 r.job_id] at hy
    rw [hfiles1] at hr
    exact mark_active_seen (runScan cfg args now1 tree db0).db _ _ _ r hr hd hy
  have hrs2 := runScan_char cfg args now2 tree (runIndexer cfg args now1 tree db0).db hdry
  have hB := fold_scan_run2 cfg args now2 hlim (runIndexer cfg args now1 tree db0).db.files
    tree ({ db := (runIndexer cfg args now1 tree db0).db } : ScanState) rfl rfl rfl
    (fun f hf hg => hgood1 f hf hg)
  have hfi2 : (runScan cfg args now2 tree (runIndexer cfg args now1 tree db0).db).db.files =
      (runIndexer cfg args now1 tree db0).db.files := by
    rw [hrs2.1]
    unfold effFiles
    rw [hB.2.2.1]
    exact hB.1
  have hjo2 : (runScan cfg args now2 tree (runIndexer cfg args now1 tree db0).db).db.jobs =
      (runIndexer cfg args now1 tree db0).db.jobs := by
    rw [hrs2.2.1]
    exact hB.2.1
  have hseen2 : (runScan cfg args now2 tree (runIndexer cfg args now1 tree db0).db).seen =
      (runScan cfg args now1 tree db0).seen := by
    rw [hrs2.2.2.1, hB.2.2.2.2.2, hseenset]
    simp
  have hpjr2 : (runScan cfg args now2 tree
      (runIndexer cfg args now1 tree db0).db).perJobRoots = [] := by
    rw [hrs2.2.2.2.1]
    exact hB.2.2.2.1
  have hmark2 : (mark_deleted_missing
      (runScan cfg args now2 tree (runIndexer cfg args now1 tree db0).db).db
      (runScan cfg args now2 tree (runIndexer cfg args now1 tree db0).db).seen
      args.yearMin args.yearMax).1 =
      (runScan cfg args now2 tree (runIndexer cfg args now1 tree db0).db).db := by
    apply mark_noop
    intro r hr hd hy
    rw [hfi2] at hr
    rw [hjo2] at hy
    rw [hseen2]
    exact hC r hr hd hy
  rw [hshape now2 (runIndexer cfg args now1 tree db0).db, hpjr2]
  simp only [List.map_nil, List.foldl_nil]
  rw [hmark2]
  exact ⟨(cleanup_files_eq _).trans hfi2, (cleanup_jobs_eq _).trans hjo2⟩

/-- C1 witness configuration: PDF extraction on, extractor importable. -/
def c1Cfg : Config := { pdfEnabled := true, fitzAvailable := true }

/-- C1 witness tree: a single admissible job document. -/
def c1File : FInfo :=
  { segs := ["P:", "JOBS", "101-23", "doc.pdf"], statOk := true, size := 10,
    mtime := "2024-01-01T00:00:00+00:00", pdfDoc := some ["BODY"], officeRaw := none }

/-- C1 witness: two complete default-flag runs over the one-file tree from
the empty store leave identical `files` and `jobs` tables. -/
theorem c1_idempotent_witness :
    (runIndexer c1Cfg {} "t2" [c1File] (runIndexer c1Cfg {} "t1" [c1File] {}).db).db.files =
      (runIndexer c1Cfg {} "t1" [c1File] {}).db.files ∧
    (runIndexer c1Cfg {} "t2" [c1File] (runIndexer c1Cfg {} "t1" [c1File] {}).db).db.jobs =
      (runIndexer c1Cfg {} "t1" [c1File] {}).db.jobs :=
  c1_idempotent c1Cfg {} "t1" "t2" [c1File] {} rfl rfl rfl rfl (by decide)

end Indexer
